import Mathlib

/- A shallow embedding of the run-lifecycle orchestration core of this
repository: idempotent flow run creation and the orchestrated state
transition driver from src/prefect/orion/models/flow_runs.py, and the
DataDocument decode cache from src/prefect/orion/schemas/data.py.

Machine integers do not occur; timestamps are modelled as a logical
clock (a Nat held in the database state) that advances at every storage
event, so that an event executed later always carries a strictly larger
timestamp, matching the monotone wall clocks read by pendulum.now and by
the database server defaults. -/

/-- Lifecycle state types (schemas.states.StateType). -/
inductive StateType where
  | SCHEDULED
  | PENDING
  | RUNNING
  | COMPLETED
  | FAILED
  | CANCELLED
  | CRASHED
deriving DecidableEq

/-- A lifecycle state attached to a run (schemas.states.State). -/
structure State where
  stype : StateType
  timestamp : Nat
  message : Option String
deriving DecidableEq

/-- A persisted flow run row (the FlowRun ORM model).  The `state` field is
the current-state pointer; `created` is the storage-assigned creation
timestamp. -/
structure FlowRun where
  id : Nat
  flow_id : Nat
  idempotency_key : Option String
  created : Nat
  state : Option State
  name : String
  tags : List String
deriving DecidableEq

/-- The database visible to a session: a logical clock, the flow run rows,
and the append-only history of persisted state rows as (run id, state)
pairs. -/
structure DB where
  time : Nat
  runs : List FlowRun
  states : List (Nat × State)
deriving DecidableEq

/-- Reads a flow run by id (read_flow_run, flow_runs.py line 130:
session.get by primary key). -/
def read_flow_run (db : DB) (flow_run_id : Nat) : Option FlowRun :=
  db.runs.find? (fun r => r.id == flow_run_id)

/-- Orchestration response status (schemas.responses.SetStateStatus). -/
inductive ResponseStatus where
  | ACCEPT
  | REJECT
  | ABORT
  | WAIT
deriving DecidableEq

/-- The mutable per-invocation record threaded through the rule chain
(rules.FlowOrchestrationContext). -/
structure FlowOrchestrationContext where
  run : FlowRun
  initial_state : Option State
  proposed_state : State
  validated_state : Option State
  response_status : ResponseStatus
  response_details : List String
deriving DecidableEq

/-- The immutable result returned to the caller
(rules.OrchestrationResult). -/
structure OrchestrationResult where
  state : Option State
  status : ResponseStatus
  details : List String
deriving DecidableEq

/-- A transition intent: the type of the current state of the run (absent
when the run has no prior state) and the type of the proposed state. -/
abbrev Intent := Option StateType × StateType

/-- One rule of an orchestration policy.  Modelled from the spec: the rule
base classes of prefect.orion.orchestration.rules are not under src; per
spec section 4.2 a rule is a before/after hook pair around the rest of the
chain.  The before phase may pass the context through, rewrite the proposed
state, mark the context REJECT or WAIT, or raise an abort signal (returning
none).  A rule applies to the transition intents listed by its FROM_STATES
and TO_STATES sets. -/
structure Rule where
  rid : Nat
  fromStates : List (Option StateType)
  toStates : List StateType
  before : FlowOrchestrationContext → Option FlowOrchestrationContext
  after : FlowOrchestrationContext → FlowOrchestrationContext

/-- Whether a rule applies to a transition intent. -/
def Rule.matches (r : Rule) (intent : Intent) : Bool :=
  r.fromStates.contains intent.1 && r.toStates.contains intent.2

/-- Modelled from the spec: BaseOrchestrationPolicy.compile_transition_rules
(the policy classes are not under src).  Per spec section 4.1, compilation
keeps, in declared priority order, exactly the rules of the policy whose
transition pattern matches the intent. -/
def compile_transition_rules (policy : List Rule) (intent : Intent) : List Rule :=
  policy.filter (fun r => r.matches intent)

/-- The Global Policy rules used by set_flow_run_state
(flow_runs.py line 352): always compiled from the global policy. -/
def compiledGlobalRules (globalPolicy : List Rule) (intent : Intent) : List Rule :=
  compile_transition_rules globalPolicy intent

/-- The Core Policy rules used by set_flow_run_state
(flow_runs.py lines 354-359): the empty list when force is true, the
compiled core policy rules otherwise. -/
def compiledCoreRules (corePolicy : List Rule) (force : Bool) (intent : Intent) : List Rule :=
  match force with
  | true => []
  | false => compile_transition_rules corePolicy intent

/-- Observable events of one rule chain execution, used to state ordering
properties of the chain. -/
inductive Event where
  | enterCore (rid : Nat)
  | enterGlobal (rid : Nat)
  | validate
  | exitGlobal (rid : Nat)
  | exitCore (rid : Nat)
deriving DecidableEq

/-- The entry event of a rule; the tag is true for core policy rules and
false for global policy rules. -/
def enterEv (tag : Bool) (r : Rule) : Event :=
  match tag with
  | true => Event.enterCore r.rid
  | false => Event.enterGlobal r.rid

/-- The exit event of a rule; the tag is true for core policy rules and
false for global policy rules. -/
def exitEv (tag : Bool) (r : Rule) : Event :=
  match tag with
  | true => Event.exitCore r.rid
  | false => Event.exitGlobal r.rid

/-- The result of entering a list of rules: the resulting context, the
entry events in order, the stack of entered rules (most recent first, as
registered by contextlib.AsyncExitStack), and whether an abort signal was
raised. -/
structure PhaseResult where
  ctx : FlowOrchestrationContext
  events : List Event
  entered : List (Bool × Rule)
  aborted : Bool

/-- Modelled from the spec: entering rules one by one, in priority order,
as stack.enter_async_context does in flow_runs.py lines 370-376.  A rule
whose before phase aborts stops the phase; rules entered so far stay on
the stack. -/
def enterPhase (tag : Bool) : List Rule → FlowOrchestrationContext → PhaseResult
  | [], ctx => ⟨ctx, [], [], false⟩
  | r :: rs, ctx =>
    match r.before ctx with
    | none => ⟨ctx, [], [], true⟩
    | some ctx1 =>
      let res := enterPhase tag rs ctx1
      ⟨res.ctx, enterEv tag r :: res.events, res.entered ++ [(tag, r)], res.aborted⟩

/-- The result of unwinding the exit stack. -/
structure UnwindResult where
  ctx : FlowOrchestrationContext
  events : List Event

/-- Modelled from the spec: firing the exit hooks of the entered rules in
exact reverse of entry order, as AsyncExitStack does when the with block
closes. -/
def unwind : List (Bool × Rule) → FlowOrchestrationContext → UnwindResult
  | [], ctx => ⟨ctx, []⟩
  | (tag, r) :: rest, ctx =>
    let res := unwind rest (r.after ctx)
    ⟨res.ctx, exitEv tag r :: res.events⟩

/-- Modelled from the spec: an abort signal unwinds the chain with no
persistence and response status ABORT. -/
def setAbort (ctx : FlowOrchestrationContext) : FlowOrchestrationContext :=
  { ctx with response_status := ResponseStatus.ABORT }

/-- Modelled from the spec: the terminal validation step
(context.validate_proposed_state, flow_runs.py line 378).  If no rule set a
status other than the default ACCEPT, the final proposed state becomes the
validated state and the current-state pointer of the run advances to it; a
rejected or aborted transition persists nothing. -/
def FlowOrchestrationContext.validate_proposed_state
    (ctx : FlowOrchestrationContext) : FlowOrchestrationContext :=
  if ctx.response_status = ResponseStatus.ACCEPT then
    { ctx with validated_state := some ctx.proposed_state,
               run := { ctx.run with state := some ctx.proposed_state } }
  else ctx

/-- The result of executing one rule chain. -/
structure ChainResult where
  ctx : FlowOrchestrationContext
  events : List Event
  aborted : Bool

/-- The onion execution of flow_runs.py lines 369-378: enter the core
policy rules in priority order, then the global policy rules in priority
order, run the terminal validation step, and fire the exit hooks in exact
reverse of entry order.  An abort while entering unwinds the rules entered
so far and skips the terminal step. -/
def execChain (coreRules globalRules : List Rule)
    (ctx0 : FlowOrchestrationContext) : ChainResult :=
  let p1 := enterPhase true coreRules ctx0
  if p1.aborted = true then
    let u := unwind p1.entered (setAbort p1.ctx)
    ⟨u.ctx, p1.events ++ u.events, true⟩
  else
    let p2 := enterPhase false globalRules p1.ctx
    if p2.aborted = true then
      let u := unwind (p2.entered ++ p1.entered) (setAbort p2.ctx)
      ⟨u.ctx, p1.events ++ p2.events ++ u.events, true⟩
    else
      let v := p2.ctx.validate_proposed_state
      let u := unwind (p2.entered ++ p1.entered) v
      ⟨u.ctx, p1.events ++ p2.events ++ Event.validate :: u.events, false⟩

/-- Writing the session back (session.flush, flow_runs.py line 380): when
the terminal step validated a state, the new state row is appended to the
history and the run row is rewritten with its advanced current-state
pointer; otherwise nothing is persisted.  The clock advances. -/
def flush (db : DB) (ctx : FlowOrchestrationContext) : DB :=
  match ctx.validated_state with
  | some s =>
    { db with time := db.time + 1,
              runs := db.runs.map (fun r => if r.id == ctx.run.id then ctx.run else r),
              states := db.states ++ [(ctx.run.id, s)] }
  | none => { db with time := db.time + 1 }

/-- The outcome of one set_flow_run_state call: the database afterwards,
the returned OrchestrationResult, the chain events, whether the chain
aborted, and the raised fault if any. -/
structure SetStateOutcome where
  db : DB
  result : Option OrchestrationResult
  events : List Event
  aborted : Bool
  error : Option String

/-- The intended transition of flow_runs.py lines 347-350: the type of the
current state of the run (absent when there is none) paired with the type
of the proposed state. -/
def intendedTransition (run : FlowRun) (state : State) : Intent :=
  (run.state.map State.stype, state.stype)

/-- set_flow_run_state (flow_runs.py lines 309-388): load the run and fail
fast when absent; compile the global rules always and the core rules only
when force is false; execute the rule chain around the terminal validation
step; flush; assemble the OrchestrationResult. -/
def set_flow_run_state (corePolicy globalPolicy : List Rule) (db : DB)
    (flow_run_id : Nat) (state : State) (force : Bool) : SetStateOutcome :=
  match read_flow_run db flow_run_id with
  | none => ⟨db, none, [], false, some "Invalid flow run"⟩
  | some run =>
    let intent := intendedTransition run state
    let global_rules := compiledGlobalRules globalPolicy intent
    let orchestration_rules := compiledCoreRules corePolicy force intent
    let ctx0 : FlowOrchestrationContext :=
      { run := run, initial_state := run.state, proposed_state := state,
        validated_state := none, response_status := ResponseStatus.ACCEPT,
        response_details := [] }
    let res := execChain orchestration_rules global_rules ctx0
    let db1 := flush db res.ctx
    ⟨db1, some ⟨res.ctx.validated_state, res.ctx.response_status, res.ctx.response_details⟩,
      res.events, res.aborted, none⟩

/-- The caller-supplied flow run model handed to create_flow_run
(schemas.core.FlowRun). -/
structure FlowRunSpec where
  id : Nat
  flow_id : Nat
  idempotency_key : Option String
  name : String
  tags : List String
  state : Option State
deriving DecidableEq

/-- Python truthiness of the idempotency key: None and the empty string
are falsy (flow_runs.py line 44, if not flow_run.idempotency_key). -/
def truthyKey : Option String → Bool
  | none => false
  | some s => !(s == "")

/-- Reading the current timestamp (pendulum.now, flow_runs.py line 42).
The clock advances so that later events carry larger timestamps. -/
def recordNow (db : DB) : Nat × DB :=
  (db.time + 1, { db with time := db.time + 1 })

/-- The fresh row built from the caller-supplied model; the creation
timestamp is assigned by storage at insert time and the state column is
not part of the insert. -/
def freshRow (flow_run : FlowRunSpec) (t : Nat) : FlowRun :=
  { id := flow_run.id, flow_id := flow_run.flow_id,
    idempotency_key := flow_run.idempotency_key, created := t,
    state := none, name := flow_run.name, tags := flow_run.tags }

/-- Whether a row conflicting on the uniqueness constraint
(flow identity, idempotency key) already exists. -/
def hasConflict (db : DB) (flow_run : FlowRunSpec) : Bool :=
  db.runs.any (fun r =>
    r.flow_id == flow_run.flow_id && r.idempotency_key == flow_run.idempotency_key)

/-- The insert of flow_runs.py lines 61-70: on conflict against the
uniqueness constraint (flow identity, idempotency key) the statement
silently does nothing; otherwise the row is inserted with a
storage-assigned creation timestamp. -/
def insertIgnoringConflict (db : DB) (flow_run : FlowRunSpec) : DB :=
  if hasConflict db flow_run = true then
    { db with time := db.time + 1 }
  else
    { db with time := db.time + 1,
              runs := db.runs ++ [freshRow flow_run (db.time + 1)] }

/-- The read back of flow_runs.py lines 71-83: the canonical row matching
(flow identity, idempotency key), limit 1. -/
def findByKey (db : DB) (fid : Nat) (key : Option String) : Option FlowRun :=
  db.runs.find? (fun r => r.flow_id == fid && r.idempotency_key == key)

/-- The outcome of one create_flow_run call: the database afterwards, the
returned row, the timestamp recorded before the insert attempt, the
arguments of the set_flow_run_state call when one was made, and the raised
fault if any. -/
structure CreateOutcome where
  db : DB
  model : Option FlowRun
  t0 : Nat
  stateCall : Option (Nat × State × Bool)
  error : Option String
deriving DecidableEq

/-- The initial state handoff of flow_runs.py lines 85-92: when the model
read back has a creation timestamp at least the timestamp recorded before
the insert attempt and the caller supplied a state, drive that state
through the engine with force set to true; otherwise set no state. -/
def maybeSetInitialState (corePolicy globalPolicy : List Rule) (db : DB)
    (now : Nat) (model : FlowRun) (flow_run : FlowRunSpec) : CreateOutcome :=
  if now ≤ model.created then
    match flow_run.state with
    | some s =>
      let res := set_flow_run_state corePolicy globalPolicy db model.id s true
      { db := res.db, model := some model, t0 := now,
        stateCall := some (model.id, s, true), error := none }
    | none =>
      { db := db, model := some model, t0 := now, stateCall := none, error := none }
  else
    { db := db, model := some model, t0 := now, stateCall := none, error := none }

/-- create_flow_run (flow_runs.py lines 24-92): record now; without a
truthy idempotency key insert a fresh row unconditionally; with one,
attempt an insert that silently no-ops on conflict and unconditionally
read back the canonical row for (flow identity, idempotency key); finally
hand the initial state to the engine when the guard of line 85 holds. -/
def create_flow_run (corePolicy globalPolicy : List Rule) (db : DB)
    (flow_run : FlowRunSpec) : CreateOutcome :=
  let rn := recordNow db
  match truthyKey flow_run.idempotency_key with
  | false =>
    let t1 := rn.2.time + 1
    let model := freshRow flow_run t1
    let db1 := { rn.2 with time := t1, runs := rn.2.runs ++ [model] }
    maybeSetInitialState corePolicy globalPolicy db1 rn.1 model flow_run
  | true =>
    let db1 := insertIgnoringConflict rn.2 flow_run
    match findByKey db1 flow_run.flow_id flow_run.idempotency_key with
    | some model => maybeSetInitialState corePolicy globalPolicy db1 rn.1 model flow_run
    | none =>
      { db := db1, model := none, t0 := rn.1, stateCall := none,
        error := some "canonical row not found" }

/-- The mutable fields of a flow run update (schemas.actions.FlowRunUpdate);
an unset field is excluded from the update statement. -/
structure FlowRunUpdate where
  name : Option String
  tags : Option (List String)
deriving DecidableEq

/-- The payload handed to update_flow_run before validation: either a valid
FlowRunUpdate value or a value of some other type, carrying the name of
that type. -/
inductive FlowRunUpdatePayload where
  | valid (u : FlowRunUpdate)
  | malformed (tyname : String)
deriving DecidableEq

/-- The outcome of one update_flow_run call. -/
structure UpdateOutcome where
  db : DB
  updated : Option Bool
  error : Option String
deriving DecidableEq

/-- Applying the set fields of an update to a row. -/
def applyUpdate (u : FlowRunUpdate) (r : FlowRun) : FlowRun :=
  { r with name := u.name.getD r.name, tags := u.tags.getD r.tags }

/-- update_flow_run (flow_runs.py lines 95-126): a payload that is not a
FlowRunUpdate raises a ValueError before the update statement is built or
executed; otherwise the matching rows are updated and rowcount reported. -/
def update_flow_run (db : DB) (flow_run_id : Nat)
    (flow_run : FlowRunUpdatePayload) : UpdateOutcome :=
  match flow_run with
  | FlowRunUpdatePayload.malformed tyname =>
    { db := db, updated := none,
      error := some ("Expected parameter flow_run to have type FlowRunUpdate, got "
        ++ tyname ++ " instead") }
  | FlowRunUpdatePayload.valid u =>
    { db := { db with
        runs := db.runs.map (fun r => if r.id == flow_run_id then applyUpdate u r else r) },
      updated := some (db.runs.any (fun r => r.id == flow_run_id)),
      error := none }

/-- A data document (schemas/data.py lines 53-99): an encoding tag, an
encoded blob, and the per-instance decode cache slot, absent until the
first successful decode. -/
structure DataDocument (D : Type) where
  encoding : String
  blob : List Nat
  dataCache : Option D
deriving DecidableEq

/-- The encode/decode implementation pair a DataDocument subclass supplies,
together with its supported encodings and the default value of its
encoding field. -/
structure DocClass (D : Type) where
  encodings : List String
  defaultEncoding : Option String
  encode : D → List Nat
  decode : List Nat → Option D

/-- DataDocument.create (data.py lines 71-85): resolve the encoding,
reject an unsupported one, encode the blob, and build the instance with
the decode cache seeded to the given data. -/
def DataDocument.create (cls : DocClass D) (data : D)
    (encoding : Option String) : Except String (DataDocument D) :=
  match (match encoding with | none => cls.defaultEncoding | some e => some e) with
  | none => Except.error "Unsupported encoding"
  | some e =>
    if cls.encodings.contains e then
      Except.ok { encoding := e, blob := cls.encode data, dataCache := some data }
    else
      Except.error "Unsupported encoding"

/-- DataDocument.read (data.py lines 87-94): return the cached data when
the cache slot is set; otherwise decode the blob, fill the cache, and
return the data.  The result also reports whether decode was invoked; a
decode failure propagates as none. -/
def DataDocument.read (cls : DocClass D) (doc : DataDocument D) :
    Option (D × DataDocument D × Bool) :=
  match doc.dataCache with
  | some d => some (d, doc, false)
  | none =>
    match cls.decode doc.blob with
    | some d => some (d, { doc with dataCache := some d }, true)
    | none => none

/-- The local state of one create_flow_run call inside the concurrency
model: its program counter over the storage steps, the timestamp it
recorded, the row it read back, and whether it passed the guard of
flow_runs.py line 85 and drove the initial state. -/
structure CallState where
  pc : Nat
  t0 : Nat
  model : Option FlowRun
  assigned : Bool
deriving DecidableEq

/-- Two concurrent create_flow_run calls over one shared database. -/
structure Sys where
  db : DB
  a : CallState
  b : CallState
deriving DecidableEq

/-- One atomic storage step of a keyed create_flow_run call: record now,
then the conflict-ignoring insert, then the read back followed by the
guarded initial state handoff.  Each step matches the corresponding slice
of create_flow_run. -/
def stepCall (corePolicy globalPolicy : List Rule) (spec : FlowRunSpec)
    (cs : CallState) (db : DB) : CallState × DB :=
  match cs.pc with
  | 0 =>
    let rn := recordNow db
    ({ cs with pc := 1, t0 := rn.1 }, rn.2)
  | 1 => ({ cs with pc := 2 }, insertIgnoringConflict db spec)
  | 2 =>
    match findByKey db spec.flow_id spec.idempotency_key with
    | none => ({ cs with pc := 3 }, db)
    | some row =>
      if cs.t0 ≤ row.created then
        match spec.state with
        | some s =>
          ({ cs with pc := 3, model := some row, assigned := true },
            (set_flow_run_state corePolicy globalPolicy db row.id s true).db)
        | none => ({ cs with pc := 3, model := some row }, db)
      else ({ cs with pc := 3, model := some row }, db)
  | _ => (cs, db)

/-- One scheduler step: true prefers call A, false prefers call B; a
finished call yields to the other. -/
def stepSys (corePolicy globalPolicy : List Rule) (sA sB : FlowRunSpec)
    (tag : Bool) (sys : Sys) : Sys :=
  let doA := match tag with
    | true => decide (sys.a.pc < 3)
    | false => decide (3 ≤ sys.b.pc)
  match doA with
  | true =>
    let res := stepCall corePolicy globalPolicy sA sys.a sys.db
    { sys with a := res.1, db := res.2 }
  | false =>
    let res := stepCall corePolicy globalPolicy sB sys.b sys.db
    { sys with b := res.1, db := res.2 }

/-- Runs both calls to completion; six scheduler steps always suffice. -/
def drainSys (corePolicy globalPolicy : List Rule) (sA sB : FlowRunSpec)
    (sys : Sys) : Sys :=
  (List.replicate 6 true).foldl
    (fun s t => stepSys corePolicy globalPolicy sA sB t s) sys

/-- Runs the two calls under a schedule of scheduler choices, then drains
whatever remains.  Every interleaving of the two three-step calls is
produced by some schedule of length six. -/
def runSched (corePolicy globalPolicy : List Rule) (sA sB : FlowRunSpec) :
    List Bool → Sys → Sys
  | [], sys => drainSys corePolicy globalPolicy sA sB sys
  | t :: rest, sys =>
    runSched corePolicy globalPolicy sA sB rest
      (stepSys corePolicy globalPolicy sA sB t sys)

/-- The event trace the spec calls the strict onion/middleware sequence:
all entries in priority order (core, then global), one terminal validation,
then all exits in exact reverse of entry order (global, then core). -/
def onionEvents (coreRules globalRules : List Rule) : List Event :=
  coreRules.map (fun r => Event.enterCore r.rid) ++
  globalRules.map (fun r => Event.enterGlobal r.rid) ++
  [Event.validate] ++
  globalRules.reverse.map (fun r => Event.exitGlobal r.rid) ++
  coreRules.reverse.map (fun r => Event.exitCore r.rid)

theorem enterPhase_no_abort (tag : Bool) (rs : List Rule)
    (ctx : FlowOrchestrationContext)
    (h : (enterPhase tag rs ctx).aborted = false) :
    (enterPhase tag rs ctx).events = rs.map (enterEv tag) ∧
    (enterPhase tag rs ctx).entered = (rs.map (fun r => (tag, r))).reverse := by
  induction rs generalizing ctx with
  | nil => exact ⟨rfl, rfl⟩
  | cons r rs ih =>
    cases hb : r.before ctx with
    | none => simp [enterPhase, hb] at h
    | some ctx1 =>
      have h2 : (enterPhase tag rs ctx1).aborted = false := by
        simpa [enterPhase, hb] using h
      obtain ⟨he, hs⟩ := ih ctx1 h2
      constructor
      · simp [enterPhase, hb, he]
      · simp [enterPhase, hb, hs]

theorem unwind_events (st : List (Bool × Rule)) (ctx : FlowOrchestrationContext) :
    (unwind st ctx).events = st.map (fun p => exitEv p.1 p.2) := by
  induction st generalizing ctx with
  | nil => rfl
  | cons p rest ih =>
    cases p with
    | mk tag r => simp [unwind, ih]

theorem enterEv_true_fun : enterEv true = fun r => Event.enterCore r.rid := rfl

theorem enterEv_false_fun : enterEv false = fun r => Event.enterGlobal r.rid := rfl

theorem exit_stack_events (tag : Bool) (rs : List Rule) :
    ((rs.map (fun r => (tag, r))).reverse).map (fun p => exitEv p.1 p.2) =
      (rs.map (exitEv tag)).reverse := by
  rw [List.map_reverse, List.map_map]
  rfl

theorem exitEv_true_fun : exitEv true = fun r => Event.exitCore r.rid := rfl

theorem exitEv_false_fun : exitEv false = fun r => Event.exitGlobal r.rid := rfl

theorem execChain_no_abort (cs gs : List Rule) (ctx : FlowOrchestrationContext)
    (h : (execChain cs gs ctx).aborted = false) :
    (execChain cs gs ctx).events = onionEvents cs gs := by
  simp only [execChain] at h ⊢
  split at h
  · simp at h
  · next h1 =>
    split at h
    · simp at h
    · next h2 =>
      rw [if_neg h1, if_neg h2]
      have h1f : (enterPhase true cs ctx).aborted = false := by
        simpa using h1
      have h2f : (enterPhase false gs (enterPhase true cs ctx).ctx).aborted = false := by
        simpa using h2
      obtain ⟨he1, hs1⟩ := enterPhase_no_abort true cs ctx h1f
      obtain ⟨he2, hs2⟩ := enterPhase_no_abort false gs _ h2f
      simp only [he1, he2, hs1, hs2, unwind_events, List.map_append,
        exit_stack_events]
      simp [onionEvents, enterEv_true_fun, enterEv_false_fun, exitEv_true_fun,
        exitEv_false_fun, List.append_assoc]

theorem onionEvents_count (cs gs : List Rule) :
    (onionEvents cs gs).count Event.validate = 1 := by
  unfold onionEvents
  have hc1 : (cs.map (fun r => Event.enterCore r.rid)).count Event.validate = 0 := by
    rw [List.count_eq_zero]
    simp
  have hc2 : (gs.map (fun r => Event.enterGlobal r.rid)).count Event.validate = 0 := by
    rw [List.count_eq_zero]
    simp
  have hc3 : (gs.map (fun r => Event.exitGlobal r.rid)).count Event.validate = 0 := by
    rw [List.count_eq_zero]
    simp
  have hc4 : (cs.map (fun r => Event.exitCore r.rid)).count Event.validate = 0 := by
    rw [List.count_eq_zero]
    simp
  simp [List.count_append, hc1, hc2, hc3, hc4]

theorem setState_events_eq (c g : List Rule) (db : DB) (i : Nat) (st : State)
    (force : Bool) (run : FlowRun) (hrun : read_flow_run db i = some run) :
    (set_flow_run_state c g db i st force).events =
      (execChain (compiledCoreRules c force (intendedTransition run st))
        (compiledGlobalRules g (intendedTransition run st))
        { run := run, initial_state := run.state, proposed_state := st,
          validated_state := none, response_status := ResponseStatus.ACCEPT,
          response_details := [] }).events ∧
    (set_flow_run_state c g db i st force).aborted =
      (execChain (compiledCoreRules c force (intendedTransition run st))
        (compiledGlobalRules g (intendedTransition run st))
        { run := run, initial_state := run.state, proposed_state := st,
          validated_state := none, response_status := ResponseStatus.ACCEPT,
          response_details := [] }).aborted := by
  refine ⟨?_, ?_⟩
  all_goals simp only [set_flow_run_state, hrun]

theorem create_keyed_eq (c g : List Rule) (db : DB) (spec : FlowRunSpec)
    (hkey : truthyKey spec.idempotency_key = true) :
    create_flow_run c g db spec =
      (match findByKey (insertIgnoringConflict (recordNow db).2 spec)
          spec.flow_id spec.idempotency_key with
       | some model =>
         maybeSetInitialState c g (insertIgnoringConflict (recordNow db).2 spec)
           (recordNow db).1 model spec
       | none =>
         { db := insertIgnoringConflict (recordNow db).2 spec, model := none,
           t0 := (recordNow db).1, stateCall := none,
           error := some "canonical row not found" }) := by
  simp only [create_flow_run, hkey]

theorem create_nokey_eq (c g : List Rule) (db : DB) (spec : FlowRunSpec)
    (hkey : truthyKey spec.idempotency_key = false) :
    create_flow_run c g db spec =
      maybeSetInitialState c g
        { time := db.time + 1 + 1,
          runs := db.runs ++ [freshRow spec (db.time + 1 + 1)],
          states := db.states }
        (db.time + 1) (freshRow spec (db.time + 1 + 1)) spec := by
  simp only [create_flow_run, hkey, recordNow]

theorem maybeSet_model (c g : List Rule) (db : DB) (now : Nat) (model : FlowRun)
    (spec : FlowRunSpec) :
    (maybeSetInitialState c g db now model spec).model = some model := by
  unfold maybeSetInitialState
  split
  · split <;> rfl
  · rfl

theorem maybeSet_t0 (c g : List Rule) (db : DB) (now : Nat) (model : FlowRun)
    (spec : FlowRunSpec) :
    (maybeSetInitialState c g db now model spec).t0 = now := by
  unfold maybeSetInitialState
  split
  · split <;> rfl
  · rfl

theorem maybeSet_stateCall_isSome (c g : List Rule) (db : DB) (now : Nat)
    (model : FlowRun) (spec : FlowRunSpec) :
    (maybeSetInitialState c g db now model spec).stateCall.isSome = true ↔
      (now ≤ model.created ∧ spec.state.isSome = true) := by
  unfold maybeSetInitialState
  split
  · next h1 =>
    split
    · next s hs => simp [h1, hs]
    · next hs => simp [h1, hs]
  · next h1 => simp [h1]

theorem maybeSet_call (c g : List Rule) (db : DB) (now : Nat) (model : FlowRun)
    (spec : FlowRunSpec) (s : State) (h1 : now ≤ model.created)
    (hs : spec.state = some s) :
    maybeSetInitialState c g db now model spec =
      { db := (set_flow_run_state c g db model.id s true).db, model := some model,
        t0 := now, stateCall := some (model.id, s, true), error := none } := by
  unfold maybeSetInitialState
  rw [if_pos h1, hs]

theorem maybeSet_no_call (c g : List Rule) (db : DB) (now : Nat) (model : FlowRun)
    (spec : FlowRunSpec)
    (h : ¬(now ≤ model.created ∧ spec.state.isSome = true)) :
    maybeSetInitialState c g db now model spec =
      { db := db, model := some model, t0 := now, stateCall := none,
        error := none } := by
  unfold maybeSetInitialState
  split
  · next h1 =>
    split
    · next s hs => exact absurd ⟨h1, by rw [hs]; rfl⟩ h
    · rfl
  · rfl

theorem maybeSet_stateCall_shape (c g : List Rule) (db : DB) (now : Nat)
    (model : FlowRun) (spec : FlowRunSpec) (i : Nat) (s : State) (f : Bool)
    (h : (maybeSetInitialState c g db now model spec).stateCall = some (i, s, f)) :
    i = model.id ∧ spec.state = some s ∧ f = true := by
  unfold maybeSetInitialState at h
  split at h
  · split at h
    · next s0 hs =>
      simp only [Option.some.injEq, Prod.mk.injEq] at h
      exact ⟨h.1.symm, by rw [hs, h.2.1], h.2.2.symm⟩
    · simp at h
  · simp at h

theorem insert_states (db : DB) (spec : FlowRunSpec) :
    (insertIgnoringConflict db spec).states = db.states := by
  unfold insertIgnoringConflict
  split <;> rfl

theorem insert_runs_sub (db : DB) (spec : FlowRunSpec) (r : FlowRun)
    (h : r ∈ (insertIgnoringConflict db spec).runs) :
    r ∈ db.runs ∨ r.state = none := by
  unfold insertIgnoringConflict at h
  split at h
  · exact Or.inl h
  · rcases List.mem_append.mp h with h1 | h1
    · exact Or.inl h1
    · rcases List.mem_singleton.mp h1 with rfl
      exact Or.inr rfl

theorem findByKey_insert (db : DB) (spec : FlowRunSpec) :
    (findByKey (insertIgnoringConflict db spec)
      spec.flow_id spec.idempotency_key).isSome = true := by
  unfold insertIgnoringConflict findByKey
  split
  · next hconf =>
    unfold hasConflict at hconf
    rw [List.any_eq_true] at hconf
    obtain ⟨r, hr, hp⟩ := hconf
    rw [List.find?_isSome]
    exact ⟨r, hr, hp⟩
  · rw [List.find?_isSome]
    refine ⟨freshRow spec (db.time + 1), ?_, ?_⟩
    · exact List.mem_append.mpr (Or.inr (List.mem_singleton.mpr rfl))
    · simp [freshRow]

theorem flush_preserves_run_id (db : DB) (ctx : FlowOrchestrationContext)
    (j : Nat) (h : ∃ r, r ∈ db.runs ∧ r.id = j) :
    ∃ r, r ∈ (flush db ctx).runs ∧ r.id = j := by
  obtain ⟨r0, hr0, hid⟩ := h
  unfold flush
  split
  · by_cases hbe : (r0.id == ctx.run.id) = true
    · refine ⟨ctx.run, List.mem_map.mpr ⟨r0, hr0, ?_⟩, ?_⟩
      · show (if (r0.id == ctx.run.id) = true then ctx.run else r0) = ctx.run
        exact if_pos hbe
      · exact (eq_of_beq hbe).symm.trans hid
    · refine ⟨r0, List.mem_map.mpr ⟨r0, hr0, ?_⟩, hid⟩
      show (if (r0.id == ctx.run.id) = true then ctx.run else r0) = r0
      exact if_neg hbe
  · exact ⟨r0, hr0, hid⟩

theorem setState_preserves_run_id (c g : List Rule) (db : DB) (i : Nat)
    (st : State) (f : Bool) (j : Nat) (h : ∃ r, r ∈ db.runs ∧ r.id = j) :
    ∃ r, r ∈ (set_flow_run_state c g db i st f).db.runs ∧ r.id = j := by
  unfold set_flow_run_state
  split
  · exact h
  · exact flush_preserves_run_id db _ j h

/-- C2: for every setState invocation the compiled rule list always
includes every Global-policy rule matching the transition intent, includes
the Core-policy rules matching the intent if and only if force is false,
and when force is true the Core-policy rule list is empty. -/
theorem set_flow_run_state_rule_compilation (corePolicy globalPolicy : List Rule)
    (intent : Intent) :
    (∀ r, r ∈ compiledGlobalRules globalPolicy intent ↔
      (r ∈ globalPolicy ∧ r.matches intent = true)) ∧
    (∀ r, r ∈ compiledCoreRules corePolicy false intent ↔
      (r ∈ corePolicy ∧ r.matches intent = true)) ∧
    compiledCoreRules corePolicy true intent = [] := by
  refine ⟨fun r => ?_, fun r => ?_, rfl⟩
  · unfold compiledGlobalRules compile_transition_rules
    simp
  · unfold compiledCoreRules compile_transition_rules
    simp

/-- C5: setState against a runID matching no existing run fails with the
run-not-found fault, before any rule executes, with the database unchanged
and no result assembled. -/
theorem set_flow_run_state_missing_run (c g : List Rule) (db : DB) (i : Nat)
    (st : State) (force : Bool) (h : read_flow_run db i = none) :
    (set_flow_run_state c g db i st force).error = some "Invalid flow run" ∧
    (set_flow_run_state c g db i st force).db = db ∧
    (set_flow_run_state c g db i st force).events = [] ∧
    (set_flow_run_state c g db i st force).result = none := by
  refine ⟨?_, ?_, ?_, ?_⟩
  all_goals simp only [set_flow_run_state, h]

/-- C7: a transition intent matching no rule in either policy still
reaches the terminal validation step and is accepted unconditionally, with
the proposed state persisted to the history and returned validated. -/
theorem set_flow_run_state_no_matching_rules (c g : List Rule) (db : DB)
    (i : Nat) (st : State) (force : Bool) (run : FlowRun)
    (hrun : read_flow_run db i = some run)
    (hc : ∀ r, r ∈ c → r.matches (intendedTransition run st) = false)
    (hg : ∀ r, r ∈ g → r.matches (intendedTransition run st) = false) :
    (set_flow_run_state c g db i st force).events = [Event.validate] ∧
    (set_flow_run_state c g db i st force).result =
      some { state := some st, status := ResponseStatus.ACCEPT, details := [] } ∧
    (set_flow_run_state c g db i st force).db.states = db.states ++ [(run.id, st)] := by
  have hgc : compiledGlobalRules g (intendedTransition run st) = [] := by
    unfold compiledGlobalRules compile_transition_rules
    rw [List.filter_eq_nil_iff]
    intro a ha
    simp [hg a ha]
  have hcc : compiledCoreRules c force (intendedTransition run st) = [] := by
    cases force with
    | false =>
      unfold compiledCoreRules compile_transition_rules
      rw [List.filter_eq_nil_iff]
      intro a ha
      simp [hc a ha]
    | true => rfl
  refine ⟨?_, ?_, ?_⟩
  all_goals simp only [set_flow_run_state, hrun, hgc, hcc]
  all_goals rfl

/-- C3: a setState invocation that completes without abort executes the
rule chain as a strict onion: core rules (empty when forced) enter first
in priority order, then global rules in priority order, the terminal
validation step runs exactly once, and exit hooks fire in exact reverse of
entry order (global first, then core). -/
theorem set_flow_run_state_onion_order (c g : List Rule) (db : DB) (i : Nat)
    (st : State) (force : Bool) (run : FlowRun)
    (hrun : read_flow_run db i = some run)
    (hab : (set_flow_run_state c g db i st force).aborted = false) :
    (set_flow_run_state c g db i st force).events =
      onionEvents (compiledCoreRules c force (intendedTransition run st))
        (compiledGlobalRules g (intendedTransition run st)) ∧
    (set_flow_run_state c g db i st force).events.count Event.validate = 1 := by
  obtain ⟨he, ha⟩ := setState_events_eq c g db i st force run hrun
  have hchain := execChain_no_abort _ _ _ (ha.symm.trans hab)
  refine ⟨?_, ?_⟩
  · rw [he, hchain]
  · rw [he, hchain]
    exact onionEvents_count _ _

/-- C8: an update call whose payload is not a valid FlowRunUpdate value is
rejected with a ValueError style fault before any storage access; the
database is unchanged and no rowcount is produced. -/
theorem update_flow_run_malformed_payload (db : DB) (flow_run_id : Nat)
    (tyname : String) :
    (update_flow_run db flow_run_id (FlowRunUpdatePayload.malformed tyname)).db = db ∧
    (update_flow_run db flow_run_id (FlowRunUpdatePayload.malformed tyname)).updated = none ∧
    (update_flow_run db flow_run_id (FlowRunUpdatePayload.malformed tyname)).error =
      some ("Expected parameter flow_run to have type FlowRunUpdate, got "
        ++ tyname ++ " instead") :=
  ⟨rfl, rfl, rfl⟩

/-- C1: a createRun call whose spec carries an idempotency key drives the
initial state through the engine with force set to true exactly when the
canonical row read back has a creation timestamp at least the timestamp t0
recorded before the insert attempt and the spec supplied an initial state;
when either condition fails, the call sets no state on any run. -/
theorem create_flow_run_idempotent_initial_state (c g : List Rule) (db : DB)
    (spec : FlowRunSpec) (m : FlowRun)
    (hkey : truthyKey spec.idempotency_key = true)
    (hm : (create_flow_run c g db spec).model = some m) :
    ((create_flow_run c g db spec).stateCall.isSome = true ↔
      ((create_flow_run c g db spec).t0 ≤ m.created ∧ spec.state.isSome = true)) ∧
    (∀ s, spec.state = some s → (create_flow_run c g db spec).t0 ≤ m.created →
      (create_flow_run c g db spec).stateCall = some (m.id, s, true)) ∧
    (¬((create_flow_run c g db spec).t0 ≤ m.created ∧ spec.state.isSome = true) →
      (create_flow_run c g db spec).stateCall = none ∧
      (create_flow_run c g db spec).db.states = db.states ∧
      ∀ r, r ∈ (create_flow_run c g db spec).db.runs → r ∈ db.runs ∨ r.state = none) := by
  rw [create_keyed_eq c g db spec hkey] at hm ⊢
  cases hfind : findByKey (insertIgnoringConflict (recordNow db).2 spec)
      spec.flow_id spec.idempotency_key with
  | none =>
    rw [hfind] at hm
    exact absurd hm (by simp)
  | some model0 =>
    simp only [hfind] at hm ⊢
    rw [maybeSet_model] at hm
    cases Option.some.inj hm
    rw [maybeSet_t0]
    refine ⟨maybeSet_stateCall_isSome c g _ _ m spec, ?_, ?_⟩
    · intro s hs hle
      rw [maybeSet_call c g _ _ m spec s hle hs]
    · intro hneg
      rw [maybeSet_no_call c g _ _ m spec hneg]
      refine ⟨rfl, ?_, ?_⟩
      · exact insert_states (recordNow db).2 spec
      · intro r hr
        exact insert_runs_sub (recordNow db).2 spec r hr

/-- C4: a createRun call whose spec carries an idempotency key silently
no-ops the insert on conflict against the (flow identity, idempotency key)
uniqueness constraint, re-reads the canonical row unconditionally on both
the winning and the losing path, finds one, and operates on and returns
that re-read row. -/
theorem create_flow_run_insert_then_read_back (c g : List Rule) (db : DB)
    (spec : FlowRunSpec) (hkey : truthyKey spec.idempotency_key = true) :
    (create_flow_run c g db spec).model =
      findByKey (insertIgnoringConflict (recordNow db).2 spec)
        spec.flow_id spec.idempotency_key ∧
    (create_flow_run c g db spec).model.isSome = true ∧
    (hasConflict (recordNow db).2 spec = true →
      (insertIgnoringConflict (recordNow db).2 spec).runs = db.runs) ∧
    (∀ i s f, (create_flow_run c g db spec).stateCall = some (i, s, f) →
      ∃ mm, (create_flow_run c g db spec).model = some mm ∧ i = mm.id) := by
  rw [create_keyed_eq c g db spec hkey]
  refine ⟨?_, ?_, ?_, ?_⟩
  · cases hfind : findByKey (insertIgnoringConflict (recordNow db).2 spec)
        spec.flow_id spec.idempotency_key with
    | none => simp only [hfind]
    | some model0 => simp only [hfind, maybeSet_model]
  · cases hfind : findByKey (insertIgnoringConflict (recordNow db).2 spec)
        spec.flow_id spec.idempotency_key with
    | none =>
      have hsome := findByKey_insert (recordNow db).2 spec
      rw [hfind] at hsome
      simp at hsome
    | some model0 =>
      simp only [hfind, maybeSet_model, Option.isSome_some]
  · intro hconf
    unfold insertIgnoringConflict
    rw [if_pos hconf]
    rfl
  · intro i s f hcall
    cases hfind : findByKey (insertIgnoringConflict (recordNow db).2 spec)
        spec.flow_id spec.idempotency_key with
    | none => simp [hfind] at hcall
    | some model0 =>
      simp only [hfind] at hcall ⊢
      obtain ⟨hi, _, _⟩ := maybeSet_stateCall_shape c g _ _ model0 spec i s f hcall
      exact ⟨model0, maybeSet_model c g _ _ model0 spec, hi⟩

/-- C6: a createRun call whose spec carries no idempotency key inserts a
new row unconditionally and returns it, and whenever the spec includes an
initial state that state is driven through the engine with force set to
true immediately and unconditionally on this path. -/
theorem create_flow_run_no_key (c g : List Rule) (db : DB) (spec : FlowRunSpec)
    (hkey : truthyKey spec.idempotency_key = false) :
    (create_flow_run c g db spec).model = some (freshRow spec (db.time + 1 + 1)) ∧
    (∃ r, r ∈ (create_flow_run c g db spec).db.runs ∧ r.id = spec.id) ∧
    (∀ s, spec.state = some s →
      (create_flow_run c g db spec).stateCall = some (spec.id, s, true)) ∧
    (spec.state = none →
      (create_flow_run c g db spec).stateCall = none ∧
      (create_flow_run c g db spec).db.runs =
        db.runs ++ [freshRow spec (db.time + 1 + 1)]) := by
  rw [create_nokey_eq c g db spec hkey]
  have hle : db.time + 1 ≤ (freshRow spec (db.time + 1 + 1)).created :=
    Nat.le_succ (db.time + 1)
  have hmem : freshRow spec (db.time + 1 + 1) ∈
      db.runs ++ [freshRow spec (db.time + 1 + 1)] :=
    List.mem_append.mpr (Or.inr (List.mem_singleton.mpr rfl))
  refine ⟨maybeSet_model c g _ _ _ spec, ?_, ?_, ?_⟩
  · cases hs : spec.state with
    | none =>
      rw [maybeSet_no_call c g _ _ _ spec (by simp [hs])]
      exact ⟨freshRow spec (db.time + 1 + 1), hmem, rfl⟩
    | some s =>
      rw [maybeSet_call c g _ _ _ spec s hle hs]
      exact setState_preserves_run_id c g _ _ s true spec.id
        ⟨freshRow spec (db.time + 1 + 1), hmem, rfl⟩
  · intro s hs
    rw [maybeSet_call c g _ _ _ spec s hle hs]
    rfl
  · intro hs
    rw [maybeSet_no_call c g _ _ _ spec (by simp [hs])]
    exact ⟨rfl, rfl⟩

/-- C10: a document built by create returns exactly its data from read
without invoking decode, and for any document repeated calls to read
return the same cached value with decode invoked at most once per
instance. -/
theorem DataDocument_read_cache (D : Type) (cls : DocClass D) (data : D)
    (e : String) (doc : DataDocument D)
    (hcreate : DataDocument.create cls data (some e) = Except.ok doc) :
    DataDocument.read cls doc = some (data, doc, false) ∧
    ∀ (doc0 doc1 : DataDocument D) (d : D) (b : Bool),
      DataDocument.read cls doc0 = some (d, doc1, b) →
      DataDocument.read cls doc1 = some (d, doc1, false) := by
  constructor
  · simp only [DataDocument.create] at hcreate
    split at hcreate
    · cases Except.ok.inj hcreate
      rfl
    · simp at hcreate
  · intro doc0 doc1 d b h
    unfold DataDocument.read at h ⊢
    cases hc : doc0.dataCache with
    | some d0 =>
      simp only [hc] at h
      obtain ⟨rfl, rfl, rfl⟩ : d0 = d ∧ doc0 = doc1 ∧ false = b := by
        simpa using h
      simp [hc]
    | none =>
      simp only [hc] at h
      cases hd : cls.decode doc0.blob with
      | none => simp [hd] at h
      | some d2 =>
        simp only [hd] at h
        obtain ⟨rfl, rfl, rfl⟩ :
            d2 = d ∧ { doc0 with dataCache := some d2 } = doc1 ∧ true = b := by
          simpa using h
        simp

/-- A state used by the concrete witnesses. -/
def sampleState : State :=
  { stype := StateType.SCHEDULED, timestamp := 0, message := none }

/-- The empty database used by the concrete witnesses. -/
def emptyDB : DB := { time := 0, runs := [], states := [] }

/-- A keyed creation spec used by the concrete witnesses. -/
def specK : FlowRunSpec :=
  { id := 7, flow_id := 2, idempotency_key := some "k", name := "w",
    tags := [], state := some sampleState }

/-- A keyless creation spec used by the concrete witnesses. -/
def specN : FlowRunSpec :=
  { id := 11, flow_id := 3, idempotency_key := none, name := "n",
    tags := [], state := some sampleState }

/-- A stored run used by the concrete witnesses. -/
def runOne : FlowRun :=
  { id := 1, flow_id := 1, idempotency_key := none, created := 0,
    state := none, name := "r", tags := [] }

/-- A one-run database used by the concrete witnesses. -/
def dbOne : DB := { time := 0, runs := [runOne], states := [] }

/-- A pass-through rule matching the no-prior-state to SCHEDULED intent. -/
def passRule (n : Nat) : Rule :=
  { rid := n, fromStates := [none], toStates := [StateType.SCHEDULED],
    before := fun ctx => some ctx, after := fun ctx => ctx }

/-- Witness for C1: the concrete keyed creation call drives the initial
state exactly when the guard holds. -/
theorem create_flow_run_idempotent_initial_state_witness :
    (create_flow_run [] [] emptyDB specK).stateCall.isSome = true ↔
      ((create_flow_run [] [] emptyDB specK).t0 ≤ (freshRow specK 2).created ∧
        specK.state.isSome = true) :=
  (create_flow_run_idempotent_initial_state [] [] emptyDB specK (freshRow specK 2)
    (by decide) (by decide)).1

/-- Witness for C3: the concrete chain with one core and one global rule
produces the onion event trace. -/
theorem set_flow_run_state_onion_order_witness :
    (set_flow_run_state [passRule 1] [passRule 2] dbOne 1 sampleState false).events =
      onionEvents
        (compiledCoreRules [passRule 1] false (intendedTransition runOne sampleState))
        (compiledGlobalRules [passRule 2] (intendedTransition runOne sampleState)) :=
  (set_flow_run_state_onion_order [passRule 1] [passRule 2] dbOne 1 sampleState false
    runOne (by decide) (by decide)).1

/-- Witness for C4: the concrete keyed creation call returns exactly the
row read back after the insert attempt. -/
theorem create_flow_run_insert_then_read_back_witness :
    (create_flow_run [] [] emptyDB specK).model =
      findByKey (insertIgnoringConflict (recordNow emptyDB).2 specK)
        specK.flow_id specK.idempotency_key :=
  (create_flow_run_insert_then_read_back [] [] emptyDB specK (by decide)).1

/-- Witness for C5: setState on a missing run id fails fast with no side
effects on the concrete database. -/
theorem set_flow_run_state_missing_run_witness :
    (set_flow_run_state [] [] dbOne 5 sampleState false).error = some "Invalid flow run" ∧
    (set_flow_run_state [] [] dbOne 5 sampleState false).db = dbOne ∧
    (set_flow_run_state [] [] dbOne 5 sampleState false).events = [] ∧
    (set_flow_run_state [] [] dbOne 5 sampleState false).result = none :=
  set_flow_run_state_missing_run [] [] dbOne 5 sampleState false (by decide)

/-- Witness for C6: the concrete keyless creation call returns the freshly
inserted row. -/
theorem create_flow_run_no_key_witness :
    (create_flow_run [] [] emptyDB specN).model =
      some (freshRow specN (emptyDB.time + 1 + 1)) :=
  (create_flow_run_no_key [] [] emptyDB specN (by decide)).1

/-- Witness for C7: with empty policies the concrete transition reaches
terminal validation only. -/
theorem set_flow_run_state_no_matching_rules_witness :
    (set_flow_run_state [] [] dbOne 1 sampleState false).events = [Event.validate] :=
  (set_flow_run_state_no_matching_rules [] [] dbOne 1 sampleState false runOne
    (by decide) (fun r hr => absurd hr (List.not_mem_nil r))
    (fun r hr => absurd hr (List.not_mem_nil r))).1

/-- A concrete document class used by the C10 witness. -/
def natDocClass : DocClass Nat :=
  { encodings := ["plain"], defaultEncoding := some "plain",
    encode := fun n => [n], decode := fun l => l.head? }

/-- The concrete document built by create for the C10 witness. -/
def natDoc : DataDocument Nat :=
  { encoding := "plain", blob := [5], dataCache := some 5 }

/-- Witness for C10: reading the concrete created document returns its
data from the cache without invoking decode. -/
theorem DataDocument_read_cache_witness :
    DataDocument.read natDocClass natDoc = some (5, natDoc, false) :=
  (DataDocument_read_cache Nat natDocClass 5 "plain" natDoc (by rfl)).1

/-- The first racing creation spec: flow 1, key k1, initial SCHEDULED. -/
def raceSpecA : FlowRunSpec :=
  { id := 10, flow_id := 1, idempotency_key := some "k1", name := "a",
    tags := [], state := some sampleState }

/-- The second racing creation spec: identical flow identity, key and
initial state, distinct row id. -/
def raceSpecB : FlowRunSpec :=
  { id := 20, flow_id := 1, idempotency_key := some "k1", name := "b",
    tags := [], state := some sampleState }

/-- Both racing calls poised at their first step over an empty database. -/
def raceInit : Sys :=
  { db := { time := 0, runs := [], states := [] },
    a := { pc := 0, t0 := 0, model := none, assigned := false },
    b := { pc := 0, t0 := 0, model := none, assigned := false } }

/-- The interleaving in which both calls record t0 before the first insert
lands: A records, B records, A inserts, A reads back and assigns, B hits
the conflict, B reads back and assigns too. -/
def raceSched : List Bool := [true, false, true, true, false, false]

/-- C9 counterexample: under the raceSched interleaving of two concurrent
createRun calls sharing flow identity and idempotency key, BOTH calls pass
the creation guard and assign the initial state, appending two state rows
to the single canonical run — refuting the claim that exactly one call is
permitted to assign the initial state. -/
theorem createRun_race_double_assignment :
    (runSched [] [] raceSpecA raceSpecB raceSched raceInit).a.assigned = true ∧
    (runSched [] [] raceSpecA raceSpecB raceSched raceInit).b.assigned = true ∧
    (runSched [] [] raceSpecA raceSpecB raceSched raceInit).db.states.length = 2 ∧
    (runSched [] [] raceSpecA raceSpecB raceSched raceInit).db.runs.length = 1 := by
  decide

/-- The (flow identity, idempotency key) match predicate of a creation
spec — exactly the row predicate of hasConflict and findByKey. -/
def matchKeyOf (spec : FlowRunSpec) (r : FlowRun) : Bool :=
  r.flow_id == spec.flow_id && r.idempotency_key == spec.idempotency_key

theorem hasConflict_eq (db : DB) (spec : FlowRunSpec) :
    hasConflict db spec = db.runs.any (matchKeyOf spec) := rfl

theorem findByKey_eq (db : DB) (spec : FlowRunSpec) :
    findByKey db spec.flow_id spec.idempotency_key =
      db.runs.find? (matchKeyOf spec) := rfl

theorem matchKeyOf_fresh (spec : FlowRunSpec) (t : Nat) :
    matchKeyOf spec (freshRow spec t) = true := by
  simp [matchKeyOf, freshRow]

theorem matchKeyOf_congr (sA sB : FlowRunSpec)
    (hfk : sB.flow_id = sA.flow_id)
    (hkk : sB.idempotency_key = sA.idempotency_key) :
    matchKeyOf sB = matchKeyOf sA := by
  funext r
  simp [matchKeyOf, hfk, hkk]

/-- The identity quadruple of a run row: primary key, flow identity,
idempotency key and creation timestamp — the columns a state transition
never rewrites. -/
def runIdent (r : FlowRun) : Nat × Nat × Option String × Nat :=
  (r.id, r.flow_id, r.idempotency_key, r.created)

/-- The match predicate of a spec on identity quadruples. -/
def identMatchOf (spec : FlowRunSpec) (q : Nat × Nat × Option String × Nat) : Bool :=
  q.2.1 == spec.flow_id && q.2.2.1 == spec.idempotency_key

theorem identMatch_factor (spec : FlowRunSpec) (r : FlowRun) :
    matchKeyOf spec r = identMatchOf spec (runIdent r) := rfl

theorem filter_map_runIdent (spec : FlowRunSpec) (l : List FlowRun) :
    (l.filter (matchKeyOf spec)).map runIdent =
      (l.map runIdent).filter (identMatchOf spec) := by
  rw [List.filter_map]
  rfl

theorem filter_idents_eq (spec : FlowRunSpec) (l l2 : List FlowRun)
    (h : l.map runIdent = l2.map runIdent) :
    (l.filter (matchKeyOf spec)).map runIdent =
      (l2.filter (matchKeyOf spec)).map runIdent := by
  rw [filter_map_runIdent, filter_map_runIdent, h]

theorem ids_eq_of_idents (l l2 : List FlowRun)
    (h : l.map runIdent = l2.map runIdent) :
    l.map FlowRun.id = l2.map FlowRun.id := by
  have h2 := congrArg (List.map (fun q : Nat × Nat × Option String × Nat => q.1)) h
  rw [List.map_map, List.map_map] at h2
  exact h2

/-- A rule whose hooks never reassign the identity of the run row in the
context; per spec section 4.2 rules inspect and rewrite the proposed
state, mark the context or abort, and react to the committed outcome —
they do not swap the run row out from under the transition. -/
def Rule.preservesRun (ru : Rule) : Prop :=
  (∀ ctx ctx1, ru.before ctx = some ctx1 → runIdent ctx1.run = runIdent ctx.run) ∧
  ∀ ctx, runIdent (ru.after ctx).run = runIdent ctx.run

theorem enterPhase_ident (tag : Bool) (rs : List Rule)
    (ctx : FlowOrchestrationContext) (h : ∀ ru ∈ rs, ru.preservesRun) :
    runIdent (enterPhase tag rs ctx).ctx.run = runIdent ctx.run ∧
    ∀ q ∈ (enterPhase tag rs ctx).entered, q.2.preservesRun := by
  induction rs generalizing ctx with
  | nil =>
    constructor
    · rfl
    · intro q hq
      simp [enterPhase] at hq
  | cons r rs ih =>
    have hr := h r (List.mem_cons_self r rs)
    have hrest : ∀ ru ∈ rs, ru.preservesRun :=
      fun ru hru => h ru (List.mem_cons_of_mem r hru)
    cases hb : r.before ctx with
    | none =>
      constructor
      · simp [enterPhase, hb]
      · intro q hq
        simp [enterPhase, hb] at hq
    | some ctx1 =>
      obtain ⟨hi, he⟩ := ih ctx1 hrest
      constructor
      · simp only [enterPhase, hb]
        exact hi.trans (hr.1 ctx ctx1 hb)
      · intro q hq
        simp only [enterPhase, hb, List.mem_append, List.mem_singleton] at hq
        rcases hq with hq | hq
        · exact he q hq
        · rw [hq]
          exact hr

theorem unwind_ident (st : List (Bool × Rule)) (ctx : FlowOrchestrationContext)
    (h : ∀ q ∈ st, q.2.preservesRun) :
    runIdent (unwind st ctx).ctx.run = runIdent ctx.run := by
  induction st generalizing ctx with
  | nil => rfl
  | cons q rest ih =>
    cases q with
    | mk tag r =>
      have hr := h (tag, r) (List.mem_cons_self _ _)
      have hrest : ∀ q2 ∈ rest, q2.2.preservesRun :=
        fun q2 hq2 => h q2 (List.mem_cons_of_mem _ hq2)
      simp only [unwind]
      exact (ih (r.after ctx) hrest).trans (hr.2 ctx)

theorem validate_ident (ctx : FlowOrchestrationContext) :
    runIdent ctx.validate_proposed_state.run = runIdent ctx.run := by
  unfold FlowOrchestrationContext.validate_proposed_state
  split <;> rfl

theorem setAbort_ident (ctx : FlowOrchestrationContext) :
    runIdent (setAbort ctx).run = runIdent ctx.run := rfl

theorem execChain_ident (cs gs : List Rule) (ctx : FlowOrchestrationContext)
    (hcs : ∀ ru ∈ cs, ru.preservesRun) (hgs : ∀ ru ∈ gs, ru.preservesRun) :
    runIdent (execChain cs gs ctx).ctx.run = runIdent ctx.run := by
  obtain ⟨hi1, he1⟩ := enterPhase_ident true cs ctx hcs
  simp only [execChain]
  split
  · exact (unwind_ident _ _ he1).trans ((setAbort_ident _).trans hi1)
  · obtain ⟨hi2, he2⟩ := enterPhase_ident false gs (enterPhase true cs ctx).ctx hgs
    have hboth : ∀ q ∈ (enterPhase false gs (enterPhase true cs ctx).ctx).entered ++
        (enterPhase true cs ctx).entered, q.2.preservesRun := by
      intro q hq
      rcases List.mem_append.mp hq with hq | hq
      · exact he2 q hq
      · exact he1 q hq
    split
    · exact (unwind_ident _ _ hboth).trans
        ((setAbort_ident _).trans (hi2.trans hi1))
    · exact (unwind_ident _ _ hboth).trans
        ((validate_ident _).trans (hi2.trans hi1))

theorem set_flow_run_state_none_eq (c g : List Rule) (db : DB) (i : Nat)
    (st : State) (f : Bool) (h : read_flow_run db i = none) :
    set_flow_run_state c g db i st f =
      { db := db, result := none, events := [], aborted := false,
        error := some "Invalid flow run" } := by
  simp only [set_flow_run_state, h]

theorem set_flow_run_state_some_eq (c g : List Rule) (db : DB) (i : Nat)
    (st : State) (f : Bool) (run0 : FlowRun)
    (h : read_flow_run db i = some run0) :
    set_flow_run_state c g db i st f =
      { db := flush db
          (execChain (compiledCoreRules c f (intendedTransition run0 st))
            (compiledGlobalRules g (intendedTransition run0 st))
            { run := run0, initial_state := run0.state, proposed_state := st,
              validated_state := none, response_status := ResponseStatus.ACCEPT,
              response_details := [] }).ctx,
        result := some
          { state := (execChain (compiledCoreRules c f (intendedTransition run0 st))
              (compiledGlobalRules g (intendedTransition run0 st))
              { run := run0, initial_state := run0.state, proposed_state := st,
                validated_state := none, response_status := ResponseStatus.ACCEPT,
                response_details := [] }).ctx.validated_state,
            status := (execChain (compiledCoreRules c f (intendedTransition run0 st))
              (compiledGlobalRules g (intendedTransition run0 st))
              { run := run0, initial_state := run0.state, proposed_state := st,
                validated_state := none, response_status := ResponseStatus.ACCEPT,
                response_details := [] }).ctx.response_status,
            details := (execChain (compiledCoreRules c f (intendedTransition run0 st))
              (compiledGlobalRules g (intendedTransition run0 st))
              { run := run0, initial_state := run0.state, proposed_state := st,
                validated_state := none, response_status := ResponseStatus.ACCEPT,
                response_details := [] }).ctx.response_details },
        events := (execChain (compiledCoreRules c f (intendedTransition run0 st))
            (compiledGlobalRules g (intendedTransition run0 st))
            { run := run0, initial_state := run0.state, proposed_state := st,
              validated_state := none, response_status := ResponseStatus.ACCEPT,
              response_details := [] }).events,
        aborted := (execChain (compiledCoreRules c f (intendedTransition run0 st))
            (compiledGlobalRules g (intendedTransition run0 st))
            { run := run0, initial_state := run0.state, proposed_state := st,
              validated_state := none, response_status := ResponseStatus.ACCEPT,
              response_details := [] }).aborted,
        error := none } := by
  simp only [set_flow_run_state, h]

theorem flush_time_mono (db : DB) (ctx : FlowOrchestrationContext) :
    db.time ≤ (flush db ctx).time := by
  unfold flush
  split
  · exact Nat.le_succ _
  · exact Nat.le_succ _

theorem set_flow_run_state_time_mono (c g : List Rule) (db : DB) (i : Nat)
    (st : State) (f : Bool) :
    db.time ≤ (set_flow_run_state c g db i st f).db.time := by
  cases h : read_flow_run db i with
  | none =>
    rw [set_flow_run_state_none_eq c g db i st f h]
  | some run0 =>
    rw [set_flow_run_state_some_eq c g db i st f run0 h]
    exact flush_time_mono db _

theorem flush_idents (db : DB) (ctx : FlowOrchestrationContext)
    (hnd : (db.runs.map FlowRun.id).Nodup)
    (hctx : ∃ run0, run0 ∈ db.runs ∧ runIdent ctx.run = runIdent run0) :
    (flush db ctx).runs.map runIdent = db.runs.map runIdent := by
  obtain ⟨run0, hmem0, hid⟩ := hctx
  unfold flush
  split
  · rw [List.map_map]
    apply List.map_congr_left
    intro r hr
    show runIdent (if (r.id == ctx.run.id) = true then ctx.run else r) = runIdent r
    by_cases hbe : (r.id == ctx.run.id) = true
    · have hid1 : ctx.run.id = run0.id :=
        congrArg (fun q : Nat × Nat × Option String × Nat => q.1) hid
      have hreq : r = run0 :=
        List.inj_on_of_nodup_map hnd hr hmem0 ((eq_of_beq hbe).trans hid1)
      rw [if_pos hbe, hid, hreq]
    · rw [if_neg hbe]
  · rfl

theorem set_flow_run_state_idents (c g : List Rule) (db : DB) (i : Nat)
    (st : State) (f : Bool)
    (hc : ∀ ru ∈ c, ru.preservesRun) (hg : ∀ ru ∈ g, ru.preservesRun)
    (hnd : (db.runs.map FlowRun.id).Nodup) :
    (set_flow_run_state c g db i st f).db.runs.map runIdent =
      db.runs.map runIdent := by
  cases hread : read_flow_run db i with
  | none =>
    rw [set_flow_run_state_none_eq c g db i st f hread]
  | some run0 =>
    rw [set_flow_run_state_some_eq c g db i st f run0 hread]
    have hcc : ∀ ru ∈ compiledCoreRules c f (intendedTransition run0 st),
        ru.preservesRun := by
      intro ru hru
      cases f with
      | true => simp [compiledCoreRules] at hru
      | false => exact hc ru (List.mem_filter.mp hru).1
    have hgg : ∀ ru ∈ compiledGlobalRules g (intendedTransition run0 st),
        ru.preservesRun := fun ru hru => hg ru (List.mem_filter.mp hru).1
    apply flush_idents db _ hnd
    exact ⟨run0, List.mem_of_find?_eq_some hread,
      execChain_ident _ _ _ hcc hgg⟩

theorem stepCall_pc0 (c g : List Rule) (spec : FlowRunSpec) (cs : CallState)
    (db : DB) (h : cs.pc = 0) :
    stepCall c g spec cs db =
      ({ cs with pc := 1, t0 := db.time + 1 }, { db with time := db.time + 1 }) := by
  unfold stepCall
  rw [h]
  rfl

theorem stepCall_pc1 (c g : List Rule) (spec : FlowRunSpec) (cs : CallState)
    (db : DB) (h : cs.pc = 1) :
    stepCall c g spec cs db =
      ({ cs with pc := 2 }, insertIgnoringConflict db spec) := by
  unfold stepCall
  rw [h]

theorem stepCall_pc2 (c g : List Rule) (spec : FlowRunSpec) (cs : CallState)
    (db : DB) (h : cs.pc = 2) :
    stepCall c g spec cs db =
      match findByKey db spec.flow_id spec.idempotency_key with
      | none => ({ cs with pc := 3 }, db)
      | some row =>
        if cs.t0 ≤ row.created then
          match spec.state with
          | some s =>
            ({ cs with pc := 3, model := some row, assigned := true },
              (set_flow_run_state c g db row.id s true).db)
          | none => ({ cs with pc := 3, model := some row }, db)
        else ({ cs with pc := 3, model := some row }, db) := by
  unfold stepCall
  rw [h]

theorem stepCall_pc3 (c g : List Rule) (spec : FlowRunSpec) (cs : CallState)
    (db : DB) (n : Nat) (h : cs.pc = n + 3) :
    stepCall c g spec cs db = (cs, db) := by
  unfold stepCall
  rw [h]
  rfl

theorem insert_conflict_eq (db : DB) (spec : FlowRunSpec)
    (h : hasConflict db spec = true) :
    insertIgnoringConflict db spec = { db with time := db.time + 1 } := by
  unfold insertIgnoringConflict
  rw [if_pos h]

theorem insert_fresh_eq (db : DB) (spec : FlowRunSpec)
    (h : hasConflict db spec = false) :
    insertIgnoringConflict db spec =
      { db with time := db.time + 1,
                runs := db.runs ++ [freshRow spec (db.time + 1)] } := by
  unfold insertIgnoringConflict
  rw [if_neg]
  simp [h]

theorem count_one_of_conflict (p : FlowRun → Bool) (l : List FlowRun)
    (hconf : l.any p = true) (hle : (l.filter p).length ≤ 1) :
    (l.filter p).length = 1 := by
  rcases List.any_eq_true.mp hconf with ⟨r, hr, hpr⟩
  have hmem : r ∈ l.filter p := List.mem_filter.mpr ⟨hr, hpr⟩
  have hpos : 0 < (l.filter p).length :=
    List.length_pos.mpr (List.ne_nil_of_mem hmem)
  omega

theorem filter_nil_of_no_conflict (p : FlowRun → Bool) (l : List FlowRun)
    (hconf : l.any p = false) : l.filter p = [] := by
  rw [List.filter_eq_nil_iff]
  intro a ha
  exact List.any_eq_false.mp hconf a ha

theorem find?_of_filter_singleton (p : FlowRun → Bool) (l : List FlowRun)
    (r : FlowRun) (h : l.filter p = [r]) : l.find? p = some r := by
  induction l with
  | nil => simp at h
  | cons x xs ih =>
    cases hx : p x with
    | true =>
      rw [List.filter_cons_of_pos hx] at h
      injection h with h1 h2
      rw [List.find?_cons_of_pos _ hx, h1]
    | false =>
      rw [List.filter_cons_of_neg (by simp [hx])] at h
      rw [List.find?_cons_of_neg _ (by simp [hx])]
      exact ih h

/-- The shared database part of the race invariant: distinct row ids, ids
traceable to the initial store or the two calls, and at most one row for
the shared (flow identity, idempotency key) pair. -/
structure DbInv (p : FlowRun → Bool) (idA idB : Nat) (db0 db : DB) : Prop where
  nodup : (db.runs.map FlowRun.id).Nodup
  idsSub : ∀ j ∈ db.runs.map FlowRun.id,
    j ∈ db0.runs.map FlowRun.id ∨ j = idA ∨ j = idB
  cntLe : (db.runs.filter p).length ≤ 1

theorem dbInv_swap (p : FlowRun → Bool) (idA idB : Nat) (db0 db : DB)
    (h : DbInv p idA idB db0 db) : DbInv p idB idA db0 db := by
  refine ⟨h.nodup, ?_, h.cntLe⟩
  intro j hj
  rcases h.idsSub j hj with h1 | h1 | h1
  · exact Or.inl h1
  · exact Or.inr (Or.inr h1)
  · exact Or.inr (Or.inl h1)

/-- The per-call part of the race invariant, tracking how far the call has
progressed through its storage steps and what it has observed. -/
structure CallInv (p : FlowRun → Bool) (selfId : Nat) (hasState : Bool)
    (db : DB) (cs : CallState) : Prop where
  pcLe : cs.pc ≤ 3
  selfIn : selfId ∈ db.runs.map FlowRun.id → 2 ≤ cs.pc
  cnt : 2 ≤ cs.pc → (db.runs.filter p).length = 1
  t0le : 1 ≤ cs.pc → cs.t0 ≤ db.time
  assignedFalse : cs.pc ≤ 2 → cs.assigned = false
  modelOk : cs.pc = 3 → ∃ m, cs.model = some m ∧
    (db.runs.filter p).map runIdent = [runIdent m] ∧
    cs.assigned = (decide (cs.t0 ≤ m.created) && hasState)

/-- The creation-ownership part of the race invariant: when the initial
store had no row for the pair, every current row for the pair was created
by one of the two calls after that call recorded its t0. -/
def winnerInv (p : FlowRun → Bool) (db0 db : DB) (ca cb : CallState) : Prop :=
  (db0.runs.filter p).length = 0 →
    ∀ r ∈ db.runs.filter p,
      (1 ≤ ca.pc ∧ ca.t0 < r.created) ∨ (1 ≤ cb.pc ∧ cb.t0 < r.created)

theorem winnerInv_swap (p : FlowRun → Bool) (db0 db : DB) (ca cb : CallState)
    (h : winnerInv p db0 db ca cb) : winnerInv p db0 db cb ca := by
  intro h0 r hr
  exact (h h0 r hr).symm

/-- The full invariant of two racing keyed createRun calls. -/
structure RaceInv (sA sB : FlowRunSpec) (db0 : DB) (sys : Sys) : Prop where
  dbi : DbInv (matchKeyOf sA) sA.id sB.id db0 sys.db
  ca : CallInv (matchKeyOf sA) sA.id sA.state.isSome sys.db sys.a
  cb : CallInv (matchKeyOf sA) sB.id sB.state.isSome sys.db sys.b
  win : winnerInv (matchKeyOf sA) db0 sys.db sys.a sys.b

theorem stepCall_preserves (c g : List Rule) (spec : FlowRunSpec)
    (p : FlowRun → Bool) (hmatch : matchKeyOf spec = p)
    (otherId : Nat) (otherHasState : Bool) (db0 db : DB) (cs ob : CallState)
    (hneq : spec.id ≠ otherId)
    (hc : ∀ ru ∈ c, ru.preservesRun) (hg : ∀ ru ∈ g, ru.preservesRun)
    (hdb : DbInv p spec.id otherId db0 db)
    (hca : CallInv p spec.id spec.state.isSome db cs)
    (hcb : CallInv p otherId otherHasState db ob)
    (hwin : winnerInv p db0 db cs ob) :
    DbInv p spec.id otherId db0 (stepCall c g spec cs db).2 ∧
    CallInv p spec.id spec.state.isSome (stepCall c g spec cs db).2
      (stepCall c g spec cs db).1 ∧
    CallInv p otherId otherHasState (stepCall c g spec cs db).2 ob ∧
    winnerInv p db0 (stepCall c g spec cs db).2 (stepCall c g spec cs db).1 ob := by
  rcases hpc : cs.pc with _ | _ | _ | n
  · rw [stepCall_pc0 c g spec cs db hpc]
    refine ⟨⟨hdb.nodup, hdb.idsSub, hdb.cntLe⟩, ?_, ?_, ?_⟩
    · refine ⟨by show (1:Nat) ≤ 3; decide, ?_, ?_, ?_, ?_, ?_⟩
      · intro hmem
        have h2 := hca.selfIn hmem
        omega
      · intro h2
        simp at h2
      · intro _
        exact Nat.le_refl _
      · intro _
        exact hca.assignedFalse (by omega)
      · intro h3
        simp at h3
    · exact ⟨hcb.pcLe, hcb.selfIn, hcb.cnt,
        fun h2 => (hcb.t0le h2).trans (Nat.le_succ _),
        hcb.assignedFalse, hcb.modelOk⟩
    · intro h0 r hr
      rcases hwin h0 r hr with ⟨h1, _⟩ | hB
      · exact absurd h1 (by omega)
      · exact Or.inr hB
  · rw [stepCall_pc1 c g spec cs db hpc]
    cases hconf : hasConflict db spec with
    | true =>
      rw [insert_conflict_eq db spec hconf]
      have hany : db.runs.any p = true := by
        rw [← hmatch, ← hasConflict_eq]
        exact hconf
      have hcnt1 : (db.runs.filter p).length = 1 :=
        count_one_of_conflict p db.runs hany hdb.cntLe
      refine ⟨⟨hdb.nodup, hdb.idsSub, hdb.cntLe⟩, ?_, ?_, ?_⟩
      · refine ⟨by show (2:Nat) ≤ 3; decide,
          fun _ => by show (2:Nat) ≤ 2; decide, fun _ => hcnt1,
          fun _ => (hca.t0le (by omega)).trans (Nat.le_succ _),
          fun _ => hca.assignedFalse (by omega), ?_⟩
        intro h3
        simp at h3
      · exact ⟨hcb.pcLe, hcb.selfIn, hcb.cnt,
          fun h2 => (hcb.t0le h2).trans (Nat.le_succ _),
          hcb.assignedFalse, hcb.modelOk⟩
      · intro h0 r hr
        rcases hwin h0 r hr with ⟨_, h2⟩ | hB
        · exact Or.inl ⟨by show (1:Nat) ≤ 2; decide, h2⟩
        · exact Or.inr hB
    | false =>
      rw [insert_fresh_eq db spec hconf]
      have hany : db.runs.any p = false := by
        rw [← hmatch, ← hasConflict_eq]
        exact hconf
      have hfil0 : db.runs.filter p = [] :=
        filter_nil_of_no_conflict p db.runs hany
      have hpfr : p (freshRow spec (db.time + 1)) = true := by
        rw [← hmatch]
        exact matchKeyOf_fresh spec _
      have hfil1 : (db.runs ++ [freshRow spec (db.time + 1)]).filter p
          = [freshRow spec (db.time + 1)] := by
        rw [List.filter_append, hfil0]
        simp [hpfr]
      have hnotin : spec.id ∉ db.runs.map FlowRun.id := by
        intro hmem
        have h2 := hca.selfIn hmem
        omega
      have hids1 : (db.runs ++ [freshRow spec (db.time + 1)]).map FlowRun.id
          = db.runs.map FlowRun.id ++ [spec.id] := by
        rw [List.map_append]
        rfl
      refine ⟨⟨?_, ?_, ?_⟩, ?_, ?_, ?_⟩
      · show ((db.runs ++ [freshRow spec (db.time + 1)]).map FlowRun.id).Nodup
        rw [hids1, List.nodup_append]
        refine ⟨hdb.nodup, List.nodup_singleton _, ?_⟩
        intro a ha hb
        rw [List.mem_singleton] at hb
        subst hb
        exact hnotin ha
      · intro j hj
        rw [hids1] at hj
        rcases List.mem_append.mp hj with hj | hj
        · exact hdb.idsSub j hj
        · rw [List.mem_singleton] at hj
          exact Or.inr (Or.inl hj)
      · show ((db.runs ++ [freshRow spec (db.time + 1)]).filter p).length ≤ 1
        rw [hfil1]
        exact Nat.le_refl 1
      · refine ⟨by show (2:Nat) ≤ 3; decide,
          fun _ => by show (2:Nat) ≤ 2; decide, ?_,
          fun _ => (hca.t0le (by omega)).trans (Nat.le_succ _),
          fun _ => hca.assignedFalse (by omega), ?_⟩
        · intro _
          show ((db.runs ++ [freshRow spec (db.time + 1)]).filter p).length = 1
          rw [hfil1]
          rfl
        · intro h3
          simp at h3
      · refine ⟨hcb.pcLe, ?_, ?_, fun h2 => (hcb.t0le h2).trans (Nat.le_succ _),
          hcb.assignedFalse, ?_⟩
        · intro hmem
          rw [hids1] at hmem
          rcases List.mem_append.mp hmem with hm | hm
          · exact hcb.selfIn hm
          · rw [List.mem_singleton] at hm
            exact absurd hm.symm hneq
        · intro h2
          have h4 := hcb.cnt h2
          rw [hfil0] at h4
          simp at h4
        · intro h3
          obtain ⟨m, _, hm2, _⟩ := hcb.modelOk h3
          rw [hfil0] at hm2
          simp at hm2
      · intro h0 r hr
        rw [hfil1, List.mem_singleton] at hr
        subst hr
        refine Or.inl ⟨by show (1:Nat) ≤ 2; decide, ?_⟩
        have h4 := hca.t0le (by omega)
        show cs.t0 < db.time + 1
        omega
  · rw [stepCall_pc2 c g spec cs db hpc]
    have hcnt : (db.runs.filter p).length = 1 := hca.cnt (by omega)
    obtain ⟨r0, hr0⟩ := List.length_eq_one.mp hcnt
    have hfind : db.runs.find? p = some r0 :=
      find?_of_filter_singleton p db.runs r0 hr0
    have hfindK : findByKey db spec.flow_id spec.idempotency_key = some r0 := by
      rw [findByKey_eq, hmatch]
      exact hfind
    simp only [hfindK]
    have hr0mem : r0 ∈ db.runs.filter p := by
      rw [hr0]
      exact List.mem_singleton.mpr rfl
    have hidents0 : (db.runs.filter p).map runIdent = [runIdent r0] := by
      rw [hr0]
      rfl
    by_cases hle : cs.t0 ≤ r0.created
    · rw [if_pos hle]
      cases hst : spec.state with
      | some s =>
        simp only [hst]
        have hidents : (set_flow_run_state c g db r0.id s true).db.runs.map runIdent
            = db.runs.map runIdent :=
          set_flow_run_state_idents c g db r0.id s true hc hg hdb.nodup
        have hids : (set_flow_run_state c g db r0.id s true).db.runs.map FlowRun.id
            = db.runs.map FlowRun.id := ids_eq_of_idents _ _ hidents
        have hfidents : ((set_flow_run_state c g db r0.id s true).db.runs.filter p).map runIdent
            = (db.runs.filter p).map runIdent := by
          rw [← hmatch]
          exact filter_idents_eq spec _ _ hidents
        have hflen : ((set_flow_run_state c g db r0.id s true).db.runs.filter p).length = 1 := by
          have h4 := congrArg List.length hfidents
          rw [List.length_map, List.length_map] at h4
          rw [h4, hcnt]
        have hsingle : ((set_flow_run_state c g db r0.id s true).db.runs.filter p).map runIdent
            = [runIdent r0] := hfidents.trans hidents0
        have htime := set_flow_run_state_time_mono c g db r0.id s true
        refine ⟨⟨?_, ?_, ?_⟩, ?_, ?_, ?_⟩
        · rw [hids]
          exact hdb.nodup
        · intro j hj
          rw [hids] at hj
          exact hdb.idsSub j hj
        · rw [hflen]
        · refine ⟨by show (3:Nat) ≤ 3; decide,
            fun _ => by show (2:Nat) ≤ 3; decide, fun _ => hflen,
            fun _ => (hca.t0le (by omega)).trans htime, ?_, ?_⟩
          · intro h2
            simp at h2
          · intro _
            refine ⟨r0, rfl, hsingle, ?_⟩
            simp [hst, decide_eq_true hle]
        · refine ⟨hcb.pcLe, ?_, fun _ => hflen,
            fun h2 => (hcb.t0le h2).trans htime, hcb.assignedFalse, ?_⟩
          · intro hmem
            rw [hids] at hmem
            exact hcb.selfIn hmem
          · intro h3
            obtain ⟨m, hm1, hm2, hm3⟩ := hcb.modelOk h3
            exact ⟨m, hm1, hfidents.trans hm2, hm3⟩
        · intro h0 r hr
          have hmr : runIdent r ∈
              ((set_flow_run_state c g db r0.id s true).db.runs.filter p).map runIdent :=
            List.mem_map_of_mem _ hr
          rw [hsingle, List.mem_singleton] at hmr
          have hcreq : r.created = r0.created :=
            congrArg (fun q : Nat × Nat × Option String × Nat => q.2.2.2) hmr
          rcases hwin h0 r0 hr0mem with ⟨_, h2⟩ | ⟨h1, h2⟩
          · refine Or.inl ⟨by show (1:Nat) ≤ 3; decide, ?_⟩
            show cs.t0 < r.created
            rw [hcreq]
            exact h2
          · refine Or.inr ⟨h1, ?_⟩
            rw [hcreq]
            exact h2
      | none =>
        simp only [hst]
        have haf : cs.assigned = false := hca.assignedFalse (by omega)
        refine ⟨⟨hdb.nodup, hdb.idsSub, hdb.cntLe⟩, ?_, hcb, ?_⟩
        · refine ⟨by show (3:Nat) ≤ 3; decide,
            fun _ => by show (2:Nat) ≤ 3; decide, fun _ => hcnt,
            fun _ => hca.t0le (by omega), ?_, ?_⟩
          · intro h2
            simp at h2
          · intro _
            refine ⟨r0, rfl, hidents0, ?_⟩
            simp [hst, haf]
        · intro h0 r hr
          rcases hwin h0 r hr with ⟨_, h2⟩ | hB
          · exact Or.inl ⟨by show (1:Nat) ≤ 3; decide, h2⟩
          · exact Or.inr hB
    · rw [if_neg hle]
      have haf : cs.assigned = false := hca.assignedFalse (by omega)
      refine ⟨⟨hdb.nodup, hdb.idsSub, hdb.cntLe⟩, ?_, hcb, ?_⟩
      · refine ⟨by show (3:Nat) ≤ 3; decide,
          fun _ => by show (2:Nat) ≤ 3; decide, fun _ => hcnt,
          fun _ => hca.t0le (by omega), ?_, ?_⟩
        · intro h2
          simp at h2
        · intro _
          refine ⟨r0, rfl, hidents0, ?_⟩
          simp [haf, decide_eq_false hle]
      · intro h0 r hr
        rcases hwin h0 r hr with ⟨_, h2⟩ | hB
        · exact Or.inl ⟨by show (1:Nat) ≤ 3; decide, h2⟩
        · exact Or.inr hB
  · rw [stepCall_pc3 c g spec cs db n hpc]
    exact ⟨hdb, hca, hcb, hwin⟩

theorem stepSys_true_eq (c g : List Rule) (sA sB : FlowRunSpec) (sys : Sys) :
    stepSys c g sA sB true sys =
      (match decide (sys.a.pc < 3) with
       | true => { sys with a := (stepCall c g sA sys.a sys.db).1,
                            db := (stepCall c g sA sys.a sys.db).2 }
       | false => { sys with b := (stepCall c g sB sys.b sys.db).1,
                             db := (stepCall c g sB sys.b sys.db).2 }) := rfl

theorem stepSys_false_eq (c g : List Rule) (sA sB : FlowRunSpec) (sys : Sys) :
    stepSys c g sA sB false sys =
      (match decide (3 ≤ sys.b.pc) with
       | true => { sys with a := (stepCall c g sA sys.a sys.db).1,
                            db := (stepCall c g sA sys.a sys.db).2 }
       | false => { sys with b := (stepCall c g sB sys.b sys.db).1,
                             db := (stepCall c g sB sys.b sys.db).2 }) := rfl

theorem stepSys_preserves (c g : List Rule) (sA sB : FlowRunSpec) (db0 : DB)
    (t : Bool) (sys : Sys)
    (hfk : sB.flow_id = sA.flow_id) (hkk : sB.idempotency_key = sA.idempotency_key)
    (hneq : sA.id ≠ sB.id)
    (hc : ∀ ru ∈ c, ru.preservesRun) (hg : ∀ ru ∈ g, ru.preservesRun)
    (hinv : RaceInv sA sB db0 sys) :
    RaceInv sA sB db0 (stepSys c g sA sB t sys) := by
  have hstepA : RaceInv sA sB db0
      { sys with a := (stepCall c g sA sys.a sys.db).1,
                 db := (stepCall c g sA sys.a sys.db).2 } := by
    obtain ⟨h1, h2, h3, h4⟩ := stepCall_preserves c g sA (matchKeyOf sA) rfl
      sB.id sB.state.isSome db0 sys.db sys.a sys.b hneq hc hg
      hinv.dbi hinv.ca hinv.cb hinv.win
    exact ⟨h1, h2, h3, h4⟩
  have hstepB : RaceInv sA sB db0
      { sys with b := (stepCall c g sB sys.b sys.db).1,
                 db := (stepCall c g sB sys.b sys.db).2 } := by
    have hmB : matchKeyOf sB = matchKeyOf sA := matchKeyOf_congr sA sB hfk hkk
    obtain ⟨h1, h2, h3, h4⟩ := stepCall_preserves c g sB (matchKeyOf sA) hmB
      sA.id sA.state.isSome db0 sys.db sys.b sys.a hneq.symm hc hg
      (dbInv_swap _ _ _ _ _ hinv.dbi) hinv.cb hinv.ca
      (winnerInv_swap _ _ _ _ _ hinv.win)
    exact ⟨dbInv_swap _ _ _ _ _ h1, h3, h2, winnerInv_swap _ _ _ _ _ h4⟩
  cases t with
  | true =>
    rw [stepSys_true_eq]
    cases hd : decide (sys.a.pc < 3) with
    | true => exact hstepA
    | false => exact hstepB
  | false =>
    rw [stepSys_false_eq]
    cases hd : decide (3 ≤ sys.b.pc) with
    | true => exact hstepA
    | false => exact hstepB

theorem foldl_stepSys_preserves (c g : List Rule) (sA sB : FlowRunSpec) (db0 : DB)
    (hfk : sB.flow_id = sA.flow_id) (hkk : sB.idempotency_key = sA.idempotency_key)
    (hneq : sA.id ≠ sB.id)
    (hc : ∀ ru ∈ c, ru.preservesRun) (hg : ∀ ru ∈ g, ru.preservesRun) :
    ∀ (l : List Bool) (sys : Sys), RaceInv sA sB db0 sys →
      RaceInv sA sB db0 (l.foldl (fun s t => stepSys c g sA sB t s) sys) := by
  intro l
  induction l with
  | nil => intro sys h; exact h
  | cons t rest ih =>
    intro sys h
    exact ih _ (stepSys_preserves c g sA sB db0 t sys hfk hkk hneq hc hg h)

theorem runSched_preserves (c g : List Rule) (sA sB : FlowRunSpec) (db0 : DB)
    (hfk : sB.flow_id = sA.flow_id) (hkk : sB.idempotency_key = sA.idempotency_key)
    (hneq : sA.id ≠ sB.id)
    (hc : ∀ ru ∈ c, ru.preservesRun) (hg : ∀ ru ∈ g, ru.preservesRun) :
    ∀ (sched : List Bool) (sys : Sys), RaceInv sA sB db0 sys →
      RaceInv sA sB db0 (runSched c g sA sB sched sys) := by
  intro sched
  induction sched with
  | nil =>
    intro sys h
    exact foldl_stepSys_preserves c g sA sB db0 hfk hkk hneq hc hg
      (List.replicate 6 true) sys h
  | cons t rest ih =>
    intro sys h
    exact ih _ (stepSys_preserves c g sA sB db0 t sys hfk hkk hneq hc hg h)

theorem stepCall_pc_succ (c g : List Rule) (spec : FlowRunSpec) (cs : CallState)
    (db : DB) (h : cs.pc < 3) :
    (stepCall c g spec cs db).1.pc = cs.pc + 1 := by
  rcases hpc : cs.pc with _ | _ | _ | n
  · rw [stepCall_pc0 c g spec cs db hpc]
  · rw [stepCall_pc1 c g spec cs db hpc]
  · rw [stepCall_pc2 c g spec cs db hpc]
    cases findByKey db spec.flow_id spec.idempotency_key with
    | none => rfl
    | some row =>
      by_cases hle : cs.t0 ≤ row.created
      · cases spec.state <;> simp [hle]
      · simp [hle]
  · omega

theorem stepCall_pc_le (c g : List Rule) (spec : FlowRunSpec) (cs : CallState)
    (db : DB) (h : cs.pc ≤ 3) :
    (stepCall c g spec cs db).1.pc ≤ 3 := by
  by_cases h2 : cs.pc < 3
  · rw [stepCall_pc_succ c g spec cs db h2]
    omega
  · have h3 : cs.pc = 0 + 3 := by omega
    rw [stepCall_pc3 c g spec cs db 0 h3]
    exact h

theorem stepSys_progress (c g : List Rule) (sA sB : FlowRunSpec) (t : Bool)
    (sys : Sys) (ha : sys.a.pc ≤ 3) (hb : sys.b.pc ≤ 3) :
    ((stepSys c g sA sB t sys).a.pc ≤ 3 ∧ (stepSys c g sA sB t sys).b.pc ≤ 3) ∧
    (sys.a.pc + sys.b.pc + 1 ≤
        (stepSys c g sA sB t sys).a.pc + (stepSys c g sA sB t sys).b.pc ∨
      (sys.a.pc = 3 ∧ sys.b.pc = 3 ∧ stepSys c g sA sB t sys = sys)) := by
  cases t with
  | true =>
    rw [stepSys_true_eq]
    cases hd : decide (sys.a.pc < 3) with
    | true =>
      have hlt : sys.a.pc < 3 := of_decide_eq_true hd
      refine ⟨⟨?_, hb⟩, Or.inl ?_⟩
      · show (stepCall c g sA sys.a sys.db).1.pc ≤ 3
        exact stepCall_pc_le c g sA sys.a sys.db ha
      · show sys.a.pc + sys.b.pc + 1 ≤ (stepCall c g sA sys.a sys.db).1.pc + sys.b.pc
        rw [stepCall_pc_succ c g sA sys.a sys.db hlt]
        omega
    | false =>
      have hge : ¬ sys.a.pc < 3 := of_decide_eq_false hd
      by_cases hbl : sys.b.pc < 3
      · refine ⟨⟨ha, ?_⟩, Or.inl ?_⟩
        · show (stepCall c g sB sys.b sys.db).1.pc ≤ 3
          exact stepCall_pc_le c g sB sys.b sys.db hb
        · show sys.a.pc + sys.b.pc + 1 ≤ sys.a.pc + (stepCall c g sB sys.b sys.db).1.pc
          rw [stepCall_pc_succ c g sB sys.b sys.db hbl]
          omega
      · have ha3 : sys.a.pc = 3 := by omega
        have hb3 : sys.b.pc = 0 + 3 := by omega
        refine ⟨⟨ha, ?_⟩, Or.inr ⟨ha3, by omega, ?_⟩⟩
        · show (stepCall c g sB sys.b sys.db).1.pc ≤ 3
          exact stepCall_pc_le c g sB sys.b sys.db hb
        · show { sys with b := (stepCall c g sB sys.b sys.db).1,
                          db := (stepCall c g sB sys.b sys.db).2 } = sys
          rw [stepCall_pc3 c g sB sys.b sys.db 0 hb3]
  | false =>
    rw [stepSys_false_eq]
    cases hd : decide (3 ≤ sys.b.pc) with
    | true =>
      have hbge : 3 ≤ sys.b.pc := of_decide_eq_true hd
      by_cases hal : sys.a.pc < 3
      · refine ⟨⟨?_, hb⟩, Or.inl ?_⟩
        · show (stepCall c g sA sys.a sys.db).1.pc ≤ 3
          exact stepCall_pc_le c g sA sys.a sys.db ha
        · show sys.a.pc + sys.b.pc + 1 ≤ (stepCall c g sA sys.a sys.db).1.pc + sys.b.pc
          rw [stepCall_pc_succ c g sA sys.a sys.db hal]
          omega
      · have ha3 : sys.a.pc = 0 + 3 := by omega
        refine ⟨⟨?_, hb⟩, Or.inr ⟨by omega, by omega, ?_⟩⟩
        · show (stepCall c g sA sys.a sys.db).1.pc ≤ 3
          exact stepCall_pc_le c g sA sys.a sys.db ha
        · show { sys with a := (stepCall c g sA sys.a sys.db).1,
                          db := (stepCall c g sA sys.a sys.db).2 } = sys
          rw [stepCall_pc3 c g sA sys.a sys.db 0 ha3]
    | false =>
      have hbl : sys.b.pc < 3 := by
        have h4 := of_decide_eq_false hd
        omega
      refine ⟨⟨ha, ?_⟩, Or.inl ?_⟩
      · show (stepCall c g sB sys.b sys.db).1.pc ≤ 3
        exact stepCall_pc_le c g sB sys.b sys.db hb
      · show sys.a.pc + sys.b.pc + 1 ≤ sys.a.pc + (stepCall c g sB sys.b sys.db).1.pc
        rw [stepCall_pc_succ c g sB sys.b sys.db hbl]
        omega

theorem foldl_true_done (c g : List Rule) (sA sB : FlowRunSpec) :
    ∀ (n : Nat) (sys : Sys), sys.a.pc ≤ 3 → sys.b.pc ≤ 3 →
      6 ≤ sys.a.pc + sys.b.pc + n →
      ((List.replicate n true).foldl (fun s t => stepSys c g sA sB t s) sys).a.pc = 3 ∧
      ((List.replicate n true).foldl (fun s t => stepSys c g sA sB t s) sys).b.pc = 3 := by
  intro n
  induction n with
  | zero =>
    intro sys ha hb hsum
    constructor
    · show sys.a.pc = 3
      omega
    · show sys.b.pc = 3
      omega
  | succ n ih =>
    intro sys ha hb hsum
    have hfold : (List.replicate (n + 1) true).foldl
        (fun s t => stepSys c g sA sB t s) sys =
        (List.replicate n true).foldl (fun s t => stepSys c g sA sB t s)
          (stepSys c g sA sB true sys) := rfl
    rw [hfold]
    obtain ⟨⟨ha2, hb2⟩, hprog⟩ := stepSys_progress c g sA sB true sys ha hb
    rcases hprog with hsum2 | ⟨ha3, hb3, hid⟩
    · exact ih _ ha2 hb2 (by omega)
    · rw [hid]
      exact ih sys ha hb (by omega)

theorem runSched_done (c g : List Rule) (sA sB : FlowRunSpec) :
    ∀ (sched : List Bool) (sys : Sys), sys.a.pc ≤ 3 → sys.b.pc ≤ 3 →
      (runSched c g sA sB sched sys).a.pc = 3 ∧
      (runSched c g sA sB sched sys).b.pc = 3 := by
  intro sched
  induction sched with
  | nil =>
    intro sys ha hb
    exact foldl_true_done c g sA sB 6 sys ha hb (by omega)
  | cons t rest ih =>
    intro sys ha hb
    obtain ⟨⟨ha2, hb2⟩, _⟩ := stepSys_progress c g sA sB t sys ha hb
    exact ih _ ha2 hb2

/-- Both keyed createRun calls poised at their first storage step over a
given initial store. -/
def raceStart (db0 : DB) : Sys :=
  { db := db0,
    a := { pc := 0, t0 := 0, model := none, assigned := false },
    b := { pc := 0, t0 := 0, model := none, assigned := false } }

theorem raceInv_init (sA sB : FlowRunSpec) (db0 : DB)
    (hfreshA : ∀ r ∈ db0.runs, r.id ≠ sA.id)
    (hfreshB : ∀ r ∈ db0.runs, r.id ≠ sB.id)
    (hnd : (db0.runs.map FlowRun.id).Nodup)
    (huniq : (db0.runs.filter (matchKeyOf sA)).length ≤ 1) :
    RaceInv sA sB db0 (raceStart db0) := by
  refine ⟨⟨hnd, fun j hj => Or.inl hj, huniq⟩, ?_, ?_, ?_⟩
  · refine ⟨by show (0:Nat) ≤ 3; decide, ?_, ?_, ?_, fun _ => rfl, ?_⟩
    · intro hmem
      have hmem2 : sA.id ∈ db0.runs.map FlowRun.id := hmem
      rcases List.mem_map.mp hmem2 with ⟨r, hr, hid⟩
      exact absurd hid (hfreshA r hr)
    · intro h2
      exact absurd h2 (by show ¬(2:Nat) ≤ 0; decide)
    · intro h2
      exact absurd h2 (by show ¬(1:Nat) ≤ 0; decide)
    · intro h3
      exact absurd h3 (by show (0:Nat) ≠ 3; decide)
  · refine ⟨by show (0:Nat) ≤ 3; decide, ?_, ?_, ?_, fun _ => rfl, ?_⟩
    · intro hmem
      have hmem2 : sB.id ∈ db0.runs.map FlowRun.id := hmem
      rcases List.mem_map.mp hmem2 with ⟨r, hr, hid⟩
      exact absurd hid (hfreshB r hr)
    · intro h2
      exact absurd h2 (by show ¬(2:Nat) ≤ 0; decide)
    · intro h2
      exact absurd h2 (by show ¬(1:Nat) ≤ 0; decide)
    · intro h3
      exact absurd h3 (by show (0:Nat) ≠ 3; decide)
  · intro h0 r hr
    have hr2 : r ∈ db0.runs.filter (matchKeyOf sA) := hr
    rw [List.length_eq_zero] at h0
    rw [h0] at hr2
    simp at hr2

/-- C9 amended: two concurrent keyed createRun calls sharing a flow
identity and idempotency key, racing over any interleaving of their
storage steps from any store satisfying the storage uniqueness invariant,
with fresh distinct primary keys and policies whose rules never reassign
the run row identity.  Afterwards exactly one canonical row for the pair
exists, both calls read back and return that same canonical row, each call
assigns the initial state if and only if the canonical creation timestamp
is at least the t0 it recorded before its insert attempt and its own spec
supplied an initial state, and when the store began with no row for the
pair and both specs supply an initial state at least one of the two calls
assigns it — the counterexample shows both may. -/
theorem createRun_race_canonical_row (c g : List Rule) (sA sB : FlowRunSpec)
    (db0 : DB) (sched : List Bool)
    (_hkeyA : truthyKey sA.idempotency_key = true)
    (hfk : sB.flow_id = sA.flow_id)
    (hkk : sB.idempotency_key = sA.idempotency_key)
    (hneq : sA.id ≠ sB.id)
    (hfreshA : ∀ r ∈ db0.runs, r.id ≠ sA.id)
    (hfreshB : ∀ r ∈ db0.runs, r.id ≠ sB.id)
    (hnd : (db0.runs.map FlowRun.id).Nodup)
    (huniq : (db0.runs.filter (matchKeyOf sA)).length ≤ 1)
    (hc : ∀ ru ∈ c, ru.preservesRun) (hg : ∀ ru ∈ g, ru.preservesRun) :
    ((runSched c g sA sB sched (raceStart db0)).db.runs.filter (matchKeyOf sA)).length = 1 ∧
    (∃ ma mb,
      (runSched c g sA sB sched (raceStart db0)).a.model = some ma ∧
      (runSched c g sA sB sched (raceStart db0)).b.model = some mb ∧
      ma.id = mb.id ∧ ma.created = mb.created ∧ matchKeyOf sA ma = true ∧
      (∃ r, r ∈ (runSched c g sA sB sched (raceStart db0)).db.runs ∧
        matchKeyOf sA r = true ∧ r.id = ma.id ∧ r.created = ma.created) ∧
      (runSched c g sA sB sched (raceStart db0)).a.assigned =
        (decide ((runSched c g sA sB sched (raceStart db0)).a.t0 ≤ ma.created)
          && sA.state.isSome) ∧
      (runSched c g sA sB sched (raceStart db0)).b.assigned =
        (decide ((runSched c g sA sB sched (raceStart db0)).b.t0 ≤ mb.created)
          && sB.state.isSome)) ∧
    ((db0.runs.filter (matchKeyOf sA)).length = 0 → sA.state.isSome = true →
      sB.state.isSome = true →
      ((runSched c g sA sB sched (raceStart db0)).a.assigned ||
        (runSched c g sA sB sched (raceStart db0)).b.assigned) = true) := by
  have hinv0 := raceInv_init sA sB db0 hfreshA hfreshB hnd huniq
  have hfin := runSched_preserves c g sA sB db0 hfk hkk hneq hc hg sched
    (raceStart db0) hinv0
  obtain ⟨hpcA, hpcB⟩ := runSched_done c g sA sB sched (raceStart db0)
    (by show (0:Nat) ≤ 3; decide) (by show (0:Nat) ≤ 3; decide)
  obtain ⟨ma, hma, hlistA, hassA⟩ := hfin.ca.modelOk hpcA
  obtain ⟨mb, hmb, hlistB, hassB⟩ := hfin.cb.modelOk hpcB
  have hidentAB : runIdent ma = runIdent mb := by
    have h4 := hlistA.symm.trans hlistB
    injection h4
  have hflen : ((runSched c g sA sB sched (raceStart db0)).db.runs.filter
      (matchKeyOf sA)).length = 1 := by
    have h4 := congrArg List.length hlistA
    rw [List.length_map] at h4
    rw [h4]
    rfl
  obtain ⟨r0, hr0⟩ := List.length_eq_one.mp hflen
  have hr0mem : r0 ∈ (runSched c g sA sB sched (raceStart db0)).db.runs.filter
      (matchKeyOf sA) := by
    rw [hr0]
    exact List.mem_singleton.mpr rfl
  have hr0ident : runIdent r0 = runIdent ma := by
    have h5 : ((runSched c g sA sB sched (raceStart db0)).db.runs.filter
        (matchKeyOf sA)).map runIdent = [runIdent r0] := by
      rw [hr0]
      rfl
    have h6 := h5.symm.trans hlistA
    injection h6
  have hid_eq : ma.id = mb.id :=
    congrArg (fun q : Nat × Nat × Option String × Nat => q.1) hidentAB
  have hcr_eq : ma.created = mb.created :=
    congrArg (fun q : Nat × Nat × Option String × Nat => q.2.2.2) hidentAB
  have hr0id : r0.id = ma.id :=
    congrArg (fun q : Nat × Nat × Option String × Nat => q.1) hr0ident
  have hr0cr : r0.created = ma.created :=
    congrArg (fun q : Nat × Nat × Option String × Nat => q.2.2.2) hr0ident
  have hpma : matchKeyOf sA ma = true := by
    have hpr0 : matchKeyOf sA r0 = true := (List.mem_filter.mp hr0mem).2
    rw [identMatch_factor] at hpr0 ⊢
    rw [← hr0ident]
    exact hpr0
  refine ⟨hflen, ⟨ma, mb, hma, hmb, hid_eq, hcr_eq, hpma,
    ⟨r0, (List.mem_filter.mp hr0mem).1, (List.mem_filter.mp hr0mem).2, hr0id, hr0cr⟩,
    hassA, hassB⟩, ?_⟩
  intro h0 hsA hsB
  rcases hfin.win h0 r0 hr0mem with ⟨_, hlt⟩ | ⟨_, hlt⟩
  · have hA : (runSched c g sA sB sched (raceStart db0)).a.assigned = true := by
      rw [hassA, hsA]
      have hdec : decide ((runSched c g sA sB sched (raceStart db0)).a.t0
          ≤ ma.created) = true := by
        apply decide_eq_true
        rw [← hr0cr]
        exact Nat.le_of_lt hlt
      rw [hdec]
      rfl
    rw [hA]
    rfl
  · have hB : (runSched c g sA sB sched (raceStart db0)).b.assigned = true := by
      rw [hassB, hsB]
      have hdec : decide ((runSched c g sA sB sched (raceStart db0)).b.t0
          ≤ mb.created) = true := by
        apply decide_eq_true
        rw [← hcr_eq, ← hr0cr]
        exact Nat.le_of_lt hlt
      rw [hdec]
      rfl
    rw [hB]
    simp

/-- Witness for the amended C9: at the concrete racing pair over the empty
store, exactly one canonical row exists after the race. -/
theorem createRun_race_canonical_row_witness :
    ((runSched [] [] raceSpecA raceSpecB raceSched (raceStart emptyDB)).db.runs.filter
      (matchKeyOf raceSpecA)).length = 1 :=
  (createRun_race_canonical_row [] [] raceSpecA raceSpecB emptyDB raceSched
    (by decide) rfl rfl (by decide)
    (fun r hr => absurd hr (List.not_mem_nil r))
    (fun r hr => absurd hr (List.not_mem_nil r))
    (by simp [emptyDB])
    (by simp [emptyDB])
    (fun ru hru => absurd hru (List.not_mem_nil ru))
    (fun ru hru => absurd hru (List.not_mem_nil ru))).1
